import Mathlib

/-! rayCast: a GPU volume raycaster (src/main.cpp)

A shallow embedding of the parts of `main.cpp` that carry the numerical contract of the
program, and theorems about them:

* the fragment program `frag` (the ray-march loop, lines 55-97);
* `ProcessKeys` (the step-size control, lines 428-449);
* `create_volumetexture` (the procedural volume, lines 276-360).

The `float` step size of the host program is embedded with its binary32 rounding (`fl32`,
`fl64`). The fragment program is embedded twice: over an arbitrary linearly ordered field
`α` in exact arithmetic (the rationals make every definition executable, the reals give an
exact square root), and with a rounding `fl` applied to the result of every operation
(`fragMarchFl`), of which exact arithmetic is the instance `fl = id` and binary32 the
instance `fl = fl32`. The GLSL built-in square root and the value of `normalize` on a
vector of length zero, which GLSL leaves undefined, are parameters of the embedding
(`Builtins`).
-/

namespace RayCast

/-! ## GLSL vectors -/

/-- GLSL `vec2`. -/
structure Vec2 (α : Type) where
  x : α
  y : α

/-- GLSL `vec3`. -/
structure Vec3 (α : Type) where
  x : α
  y : α
  z : α

/-- GLSL `vec4`; the colour accessors `r g b a` are the components `x y z w`. -/
structure Vec4 (α : Type) where
  x : α
  y : α
  z : α
  w : α

section Shader

variable {α : Type} [LinearOrderedField α]

/-- Component-wise sum of two `vec3` (`vect += delta_dir`). -/
def Vec3.add (u v : Vec3 α) : Vec3 α := ⟨u.x + v.x, u.y + v.y, u.z + v.z⟩

/-- Product of a `vec3` with a scalar (`norm_dir * delta`). -/
def Vec3.scale (v : Vec3 α) (c : α) : Vec3 α := ⟨v.x * c, v.y * c, v.z * c⟩

/-- Component-wise sum of two `vec4` (`col_acc += ...`). -/
def Vec4.add (u v : Vec4 α) : Vec4 α := ⟨u.x + v.x, u.y + v.y, u.z + v.z, u.w + v.w⟩

/-- Product of a scalar with a `vec4` (`( 1. - alpha_acc ) * color_sample`). -/
def Vec4.scale (c : α) (v : Vec4 α) : Vec4 α := ⟨c * v.x, c * v.y, c * v.z, c * v.w⟩

/-- Product of a `vec4` with a scalar (`... * alpha_sample * 3.`). -/
def Vec4.times (v : Vec4 α) (c : α) : Vec4 α := ⟨v.x * c, v.y * c, v.z * c, v.w * c⟩

/-- The swizzle `.xyz` of a `vec4`. -/
def Vec4.xyz (v : Vec4 α) : Vec3 α := ⟨v.x, v.y, v.z⟩

/-- The value `glClearColor(0.0, 0.0, 0.0, 0)` sets (line 387) and `glClear` writes to the
target of the ray-casting pass (line 573). -/
def clearColor : Vec4 α := ⟨0, 0, 0, 0⟩

/-- The numeric built-ins of the shading language that exact field arithmetic does not
determine: the square root, and what `normalize` returns for a vector of length zero. -/
structure Builtins (α : Type) where
  sqrt : α → α
  normalizeZero : Vec3 α

/-- GLSL `length` of a `vec3`. -/
def length (B : Builtins α) (v : Vec3 α) : α := B.sqrt (v.x * v.x + v.y * v.y + v.z * v.z)

/-- GLSL `normalize` of a `vec3`: `v / length(v)`, unspecified when the length is zero. -/
def normalize (B : Builtins α) (v : Vec3 α) : Vec3 α :=
  if length B v = 0 then B.normalizeZero
  else ⟨v.x / length B v, v.y / length B v, v.z / length B v⟩

/-- The inputs of one invocation of the fragment program: the uniforms `tex`, `volume_tex`
and `stepsize`, the varying `model_view`, and `gl_TexCoord[0]`. -/
structure FragInput (α : Type) where
  tex : Vec2 α → Vec4 α
  volume_tex : Vec3 α → Vec4 α
  stepsize : α
  model_view : Vec4 α
  texCoord0 : Vec4 α

/-- The values the fragment program computes before the loop and never changes in it. -/
structure Ray (α : Type) where
  start : Vec3 α
  len : α
  delta_dir : Vec3 α
  delta_dir_len : α

/-- Line 65 of `frag`: the coordinates at which the backface target is read. -/
def fragTexc (inp : FragInput α) : Vec2 α :=
  ⟨(inp.model_view.x / inp.model_view.w + 1) / 2, (inp.model_view.y / inp.model_view.w + 1) / 2⟩

/-- Lines 65-77 of `frag`: entry point, exit point, direction, length and step vector. -/
def fragSetup (B : Builtins α) (inp : FragInput α) : Ray α :=
  let texc := fragTexc inp
  let start := inp.texCoord0
  let back_position := inp.tex texc
  let dir : Vec3 α :=
    ⟨back_position.x - start.x, back_position.y - start.y, back_position.z - start.z⟩
  let len := length B dir
  let norm_dir := normalize B dir
  let delta := inp.stepsize
  let delta_dir := norm_dir.scale delta
  let delta_dir_len := length B delta_dir
  ⟨start.xyz, len, delta_dir, delta_dir_len⟩

/-- The variables the loop updates. `samples` counts the executions of the loop body (the
number of `texture3D` samples taken); it is the loop counter `i` plus one after a `break`
and `i` after the loop ran out. -/
structure March (α : Type) where
  col_acc : Vec4 α
  alpha_acc : α
  length_acc : α
  vect : Vec3 α
  samples : Nat

/-- Lines 77-80: the state before the first iteration. -/
def marchInit (r : Ray α) : March α := ⟨⟨0, 0, 0, 0⟩, 0, 0, r.start, 0⟩

/-- Lines 86-91: one execution of the loop body. -/
def marchBody (volume_tex : Vec3 α → Vec4 α) (stepsize : α) (r : Ray α) (s : March α) :
    March α :=
  let color_sample := volume_tex s.vect
  let alpha_sample := color_sample.w * stepsize
  { col_acc :=
      s.col_acc.add
        (((Vec4.scale (1 - s.alpha_acc) color_sample).times alpha_sample).times 3)
    alpha_acc := s.alpha_acc + alpha_sample
    vect := s.vect.add r.delta_dir
    length_acc := s.length_acc + r.delta_dir_len
    samples := s.samples + 1 }

/-- Line 92: the test of the `break`. -/
def marchStop (r : Ray α) (s : March α) : Prop := s.length_acc > r.len ∨ s.alpha_acc > 1

instance (r : Ray α) (s : March α) : Decidable (marchStop r s) := by
  unfold marchStop; infer_instance

/-- Lines 84-94: the `for` loop with `n` iterations left (`n = 450 - i`). -/
def rayMarch (volume_tex : Vec3 α → Vec4 α) (stepsize : α) (r : Ray α) : Nat → March α → March α
  | 0, s => s
  | n + 1, s =>
    let s' := marchBody volume_tex stepsize r s
    if marchStop r s' then s' else rayMarch volume_tex stepsize r n s'

/-- The state of the loop of `frag` when it is left. -/
def fragMarch (B : Builtins α) (inp : FragInput α) : March α :=
  rayMarch inp.volume_tex inp.stepsize (fragSetup B inp) 450 (marchInit (fragSetup B inp))

/-- The fragment program: the colour written to `gl_FragColor` (line 95). -/
def frag (B : Builtins α) (inp : FragInput α) : Vec4 α := (fragMarch B inp).col_acc

/-- The loop variables of `frag` after `k` executions of the loop body, the `break` ignored. -/
def marchAfter (B : Builtins α) (inp : FragInput α) (k : Nat) : March α :=
  (marchBody inp.volume_tex inp.stepsize (fragSetup B inp))^[k] (marchInit (fragSetup B inp))

/-! ### The fragment program in rounded arithmetic

The shader computes in `float`. The definitions below repeat lines 65-95 with a rounding
`fl` applied to the result of every arithmetic operation, in the order in which the
expressions of the source associate. With `fl` the identity they are the definitions
above; with `fl = fl32` they are the program in binary32. -/

/-- GLSL `length` of a `vec3` in rounded arithmetic: the products and the two sums are
rounded, `B.sqrt` is the square root of the arithmetic. -/
def lengthFl (fl : α → α) (B : Builtins α) (v : Vec3 α) : α :=
  B.sqrt (fl (fl (fl (v.x * v.x) + fl (v.y * v.y)) + fl (v.z * v.z)))

/-- GLSL `normalize` of a `vec3` in rounded arithmetic. -/
def normalizeFl (fl : α → α) (B : Builtins α) (v : Vec3 α) : Vec3 α :=
  if lengthFl fl B v = 0 then B.normalizeZero
  else ⟨fl (v.x / lengthFl fl B v), fl (v.y / lengthFl fl B v), fl (v.z / lengthFl fl B v)⟩

/-- Line 65 of `frag` in rounded arithmetic. -/
def fragTexcFl (fl : α → α) (inp : FragInput α) : Vec2 α :=
  ⟨fl (fl (fl (inp.model_view.x / inp.model_view.w) + 1) / 2),
    fl (fl (fl (inp.model_view.y / inp.model_view.w) + 1) / 2)⟩

/-- Lines 65-77 of `frag` in rounded arithmetic. -/
def fragSetupFl (fl : α → α) (B : Builtins α) (inp : FragInput α) : Ray α :=
  let texc := fragTexcFl fl inp
  let start := inp.texCoord0
  let back_position := inp.tex texc
  let dir : Vec3 α :=
    ⟨fl (back_position.x - start.x), fl (back_position.y - start.y),
      fl (back_position.z - start.z)⟩
  let len := lengthFl fl B dir
  let norm_dir := normalizeFl fl B dir
  let delta := inp.stepsize
  let delta_dir : Vec3 α :=
    ⟨fl (norm_dir.x * delta), fl (norm_dir.y * delta), fl (norm_dir.z * delta)⟩
  let delta_dir_len := lengthFl fl B delta_dir
  ⟨start.xyz, len, delta_dir, delta_dir_len⟩

/-- Lines 86-91 in rounded arithmetic: one execution of the loop body. The running sums
`alpha_acc`, `vect` and `length_acc` are rounded at every addition. -/
def marchBodyFl (fl : α → α) (volume_tex : Vec3 α → Vec4 α) (stepsize : α) (r : Ray α)
    (s : March α) : March α :=
  let color_sample := volume_tex s.vect
  let alpha_sample := fl (color_sample.w * stepsize)
  let weight := fl (1 - s.alpha_acc)
  { col_acc :=
      ⟨fl (s.col_acc.x + fl (fl (fl (weight * color_sample.x) * alpha_sample) * 3)),
        fl (s.col_acc.y + fl (fl (fl (weight * color_sample.y) * alpha_sample) * 3)),
        fl (s.col_acc.z + fl (fl (fl (weight * color_sample.z) * alpha_sample) * 3)),
        fl (s.col_acc.w + fl (fl (fl (weight * color_sample.w) * alpha_sample) * 3))⟩
    alpha_acc := fl (s.alpha_acc + alpha_sample)
    vect := ⟨fl (s.vect.x + r.delta_dir.x), fl (s.vect.y + r.delta_dir.y),
      fl (s.vect.z + r.delta_dir.z)⟩
    length_acc := fl (s.length_acc + r.delta_dir_len)
    samples := s.samples + 1 }

/-- Lines 84-94 in rounded arithmetic: the `for` loop with `n` iterations left. -/
def rayMarchFl (fl : α → α) (volume_tex : Vec3 α → Vec4 α) (stepsize : α) (r : Ray α) :
    Nat → March α → March α
  | 0, s => s
  | n + 1, s =>
    let s' := marchBodyFl fl volume_tex stepsize r s
    if marchStop r s' then s' else rayMarchFl fl volume_tex stepsize r n s'

/-- The state of the loop of `frag` when it is left, in rounded arithmetic. -/
def fragMarchFl (fl : α → α) (B : Builtins α) (inp : FragInput α) : March α :=
  rayMarchFl fl inp.volume_tex inp.stepsize (fragSetupFl fl B inp) 450
    (marchInit (fragSetupFl fl B inp))

/-- The fragment program in rounded arithmetic: the colour written to `gl_FragColor`. -/
def fragFl (fl : α → α) (B : Builtins α) (inp : FragInput α) : Vec4 α :=
  (fragMarchFl fl B inp).col_acc

/-- The loop variables of `frag` in rounded arithmetic after `k` executions of the loop
body, the `break` ignored. -/
def marchAfterFl (fl : α → α) (B : Builtins α) (inp : FragInput α) (k : Nat) : March α :=
  (marchBodyFl fl inp.volume_tex inp.stepsize (fragSetupFl fl B inp))^[k]
    (marchInit (fragSetupFl fl B inp))

/-- The test of the `break` (line 92) after `k` samples, in rounded arithmetic. -/
def breakAfter (fl : α → α) (B : Builtins α) (inp : FragInput α) (k : Nat) : Prop :=
  marchStop (fragSetupFl fl B inp) (marchAfterFl fl B inp k)

end Shader

/-! ## Binary floating-point rounding

The variable `stepsize` of `main.cpp` is a `float` and the literals it is combined with are
`double`s: the values it holds are binary32 numbers, and every assignment rounds. Rationals
stand for the finite floating-point numbers; the exponent range is taken unbounded (no
overflow, no subnormal numbers: the values met here lie between `2^-12` and `1`). -/

/-- Rounding of a rational to the nearest integer, a tie going to the even one. -/
def roundHalfEven (y : ℚ) : ℤ :=
  if y - ⌊y⌋ < 1 / 2 then ⌊y⌋
  else if 1 / 2 < y - ⌊y⌋ then ⌊y⌋ + 1
  else if ⌊y⌋ % 2 = 0 then ⌊y⌋ else ⌊y⌋ + 1

/-- Rounding of a rational to the nearest binary floating-point number with a significand
of `p` bits (round to nearest, ties to even): with `2^e ≤ |q| < 2^(e+1)` the result is the
nearest multiple of `2^(e-(p-1))`. -/
def roundTo (p : ℕ) (q : ℚ) : ℚ :=
  if q = 0 then 0
  else
    roundHalfEven (q / 2 ^ (Int.log 2 |q| - ((p : ℤ) - 1))) *
      2 ^ (Int.log 2 |q| - ((p : ℤ) - 1))

/-- Conversion to `float` (binary32, 24 bits of significand). -/
def fl32 (q : ℚ) : ℚ := roundTo 24 q

/-- The result of an operation on `double`s (binary64, 53 bits of significand). -/
def fl64 (q : ℚ) : ℚ := roundTo 53 q

/-! ## Step-size control -/

/-- The initial value of the global `float stepsize` (line 111): the `double` quotient
`1.0/50.0` converted to `float`. -/
def stepsizeDefault : ℚ := fl32 (fl64 (1 / 50))

/-- The body of `case 'w'` (lines 439-440): `stepsize += 1.0/2048.0` adds in `double` and
converts the sum to `float`; a value above `0.25` is replaced by `0.25`. -/
def keyW (stepsize : ℚ) : ℚ :=
  let stepsize := fl32 (fl64 (stepsize + fl64 (1 / 2048)))
  if stepsize > 1 / 4 then fl32 (1 / 4) else stepsize

/-- The body of `case 'e'` (lines 443-444): `stepsize -= 1.0/2048.0` subtracts in `double`
and converts the difference to `float`; a value not above the `double` `1.0/200.0` is
replaced by that `double` converted to `float`. -/
def keyE (stepsize : ℚ) : ℚ :=
  let stepsize := fl32 (fl64 (stepsize - fl64 (1 / 2048)))
  if stepsize ≤ fl64 (1 / 200) then fl32 (fl64 (1 / 200)) else stepsize

/-- One pass of the `for` loop of `ProcessKeys` for the key code `i` (lines 433-446). -/
def processKey (gKeys : Nat → Bool) (stepsize : ℚ) (i : Nat) : ℚ :=
  if !gKeys i then stepsize
  else if i = ' '.toNat then stepsize
  else if i = 'w'.toNat then keyW stepsize
  else if i = 'e'.toNat then keyE stepsize
  else stepsize

/-- `ProcessKeys` (lines 428-449) as a function of the key table and the global `stepsize`:
the key codes `0 .. 255` are visited in increasing order. -/
def ProcessKeys (gKeys : Nat → Bool) (stepsize : ℚ) : ℚ :=
  (List.range 256).foldl (processKey gKeys) stepsize

/-- The step size after a sequence of frames, each with its own table of held keys
(`idle_func` calls `ProcessKeys` once a frame). -/
def runFrames (frames : List (Nat → Bool)) (stepsize : ℚ) : ℚ :=
  frames.foldl (fun s gKeys => ProcessKeys gKeys s) stepsize

/-- The key table with only `'w'` held. -/
def onlyW : Nat → Bool := fun i => i == 'w'.toNat

/-- The key table with only `'e'` held. -/
def onlyE : Nat → Bool := fun i => i == 'e'.toNat

/-- The binary32 number nearest to `1/200`, which is what the lower clamp stores. -/
def stepsizeMin : ℚ := 5368709 / 1073741824

/-- The step size after `n < 472` frames with only `'w'` held, from the default, in closed
form. The additions are exact except the 88th, whose exact result `16903045/2^28` lies
half-way between two binary32 numbers. -/
def incremented (n : ℕ) : ℚ :=
  if n ≤ 87 then ((5368709 + 131072 * n : ℕ) : ℚ) / 2 ^ 28
  else if n ≤ 215 then ((8451522 + 65536 * (n - 88) : ℕ) : ℚ) / 2 ^ 27
  else ((8420065 + 32768 * (n - 216) : ℕ) : ℚ) / 2 ^ 26

/-! ## The procedural volume -/

/-- The macro `VOLUME_TEX_SIZE` (line 35). -/
def VOLUME_TEX_SIZE : Nat := 128

/-- The constant `UPPER` of `create_volumetexture` (line 281), an `int`. -/
def UPPER : Int := VOLUME_TEX_SIZE * 2 - 6

/-- Modelled from the spec: the class `Vector3` of `Vector3.h`, which is not part of the
sources at hand; here a triple of integers, which is all `create_volumetexture` builds. -/
structure Vector3 where
  x : Int
  y : Int
  z : Int

/-- Modelled from the spec: `Vector3::operator-`, the component-wise difference. -/
def Vector3.sub (p q : Vector3) : Vector3 := ⟨p.x - q.x, p.y - q.y, p.z - q.z⟩

/-- Modelled from the spec: the test `p.length() < radius` of `Vector3.h`, "Euclidean
distance to that center is below the radius", decided on the squares. -/
def Vector3.lengthLt (p : Vector3) (radius : Nat) : Bool :=
  p.x * p.x + p.y * p.y + p.z * p.z < (radius : Int) * radius

/-- The vector `Vector3(x,y,z)` of a voxel. -/
def voxel (x y z : Nat) : Vector3 := ⟨x, y, z⟩

/-- The byte offset `r` of the voxel `(x, y, z)` (line 289). -/
def offsetR (x y z : Nat) : Nat :=
  (x * 4) + (y * VOLUME_TEX_SIZE * 4) + (z * VOLUME_TEX_SIZE * VOLUME_TEX_SIZE * 4)

/-- Lines 289-340: the assignments `data[ offset ] = value` the loop body executes for the
voxel `(x, y, z)`, in program order, as pairs `(offset, value)`; the values are `int`s. -/
def voxelWrites (x y z : Nat) : List (Nat × Int) :=
  let r := offsetR x y z
  let g := r + 1
  let b := g + 1
  let a := b + 1
  [(r, (z : Int)), (g, (y : Int)), (b, UPPER), (a, UPPER - 20)]
  ++ (if ((voxel x y z).sub
          (voxel (VOLUME_TEX_SIZE - 20) (VOLUME_TEX_SIZE - 30) (VOLUME_TEX_SIZE - 30))).lengthLt 42
      then [(a, 0)] else [])
  ++ (if ((voxel x y z).sub
          (voxel (VOLUME_TEX_SIZE / 2) (VOLUME_TEX_SIZE / 2) (VOLUME_TEX_SIZE / 2))).lengthLt 24
      then [(a, 0)] else [])
  ++ (if x > 20 ∧ x < 40 ∧ y > 0 ∧ y < VOLUME_TEX_SIZE ∧ z > 10 ∧ z < 50
      then [(r, UPPER / 2), (g, UPPER), (b, (y : Int) % (UPPER / 2)), (a, UPPER)] else [])
  ++ (if x > 50 ∧ x < 70 ∧ y > 0 ∧ y < VOLUME_TEX_SIZE ∧ z > 10 ∧ z < 50
      then [(r, UPPER), (g, UPPER), (b, (y : Int) % (UPPER / 2)), (a, UPPER)] else [])
  ++ (if x > 80 ∧ x < 100 ∧ y > 0 ∧ y < VOLUME_TEX_SIZE ∧ z > 10 ∧ z < 50
      then [(r, UPPER), (g, UPPER / 3), (b, (y : Int) % (UPPER / 2)), (a, UPPER)] else [])
  ++ (if ((voxel x y z).sub (voxel 24 24 24)).lengthLt 40 then [(a, 0)] else [])

/-- The array `data` of `GLubyte`: `none` for a byte not yet assigned (`new GLubyte[size]`
leaves the bytes uninitialised), `some b` with `b < 256` for an assigned one. -/
abbrev Buffer := Nat → Option Nat

/-- The array right after `new GLubyte[size]`. -/
def emptyBuffer : Buffer := fun _ => none

/-- The conversion of an `int` to `GLubyte`: the value modulo 256. -/
def toGLubyte (v : Int) : Nat := (v % 256).toNat

/-- One assignment `data[ offset ] = value` into an array of `size` bytes; an offset outside
the array has no result. -/
def store (size : Nat) (data : Buffer) (w : Nat × Int) : Option Buffer :=
  if w.1 < size then some (fun j => if j = w.1 then some (toGLubyte w.2) else data j) else none

/-- The variable `size` of `create_volumetexture` (line 278). -/
def bufferSize : Nat := VOLUME_TEX_SIZE * VOLUME_TEX_SIZE * VOLUME_TEX_SIZE * 4

/-- Lines 278-343 of `create_volumetexture`: the contents of `data` handed to
`glTexImage3D`, or `none` if an assignment fell outside the array. -/
def create_volumetexture : Option Buffer :=
  (List.range VOLUME_TEX_SIZE).foldlM (fun data x =>
    (List.range VOLUME_TEX_SIZE).foldlM (fun data y =>
      (List.range VOLUME_TEX_SIZE).foldlM (fun data z =>
        (voxelWrites x y z).foldlM (store bufferSize) data) data) data) emptyBuffer

/-- The alpha the claim on the write order expects for the voxel `(x, y, z)`: the final cavity,
then the insets, then the two earlier cavities, then the base value. -/
def expectedAlpha (x y z : Nat) : Nat :=
  if ((x : Int) - 24) ^ 2 + ((y : Int) - 24) ^ 2 + ((z : Int) - 24) ^ 2 < 40 ^ 2 then 0
  else if 0 < y ∧ y < 128 ∧ 10 < z ∧ z < 50 ∧
      ((20 < x ∧ x < 40) ∨ (50 < x ∧ x < 70) ∨ (80 < x ∧ x < 100)) then 250
  else if ((x : Int) - 108) ^ 2 + ((y : Int) - 98) ^ 2 + ((z : Int) - 98) ^ 2 < 42 ^ 2
      ∨ ((x : Int) - 64) ^ 2 + ((y : Int) - 64) ^ 2 + ((z : Int) - 64) ^ 2 < 24 ^ 2 then 0
  else 230

/-- The byte offset the claim on the layout gives the channel `c` of the voxel `(x, y, z)`:
`x` varies fastest, then `y`, then `z`. -/
def expectedOffset (x y z c : Nat) : Nat := 4 * (x + 128 * y + 128 * 128 * z) + c

/-- The last value assigned to `offset` in a sequence of assignments, if there is one. -/
def lastWrite : List (Nat × Int) → Nat → Option Int
  | [], _ => none
  | w :: ws, offset =>
    match lastWrite ws offset with
    | some v => some v
    | none => if w.1 = offset then some w.2 else none

/-- The contents of the array after a sequence of assignments, all inside the array. -/
def applyWrites (ws : List (Nat × Int)) (data : Buffer) : Buffer :=
  fun j => match lastWrite ws j with
    | some v => some (toGLubyte v)
    | none => data j

/-- All the assignments of `create_volumetexture`, in program order. -/
def allWrites : List (Nat × Int) :=
  (List.range VOLUME_TEX_SIZE).flatMap fun x =>
    (List.range VOLUME_TEX_SIZE).flatMap fun y =>
      (List.range VOLUME_TEX_SIZE).flatMap fun z => voxelWrites x y z

/-! ## Specification-side predicates and concrete inputs -/

section Fixtures

variable {α : Type} [LinearOrderedField α]

/-- The two tests of the `break` after `k` samples, as the specification words them: the
traveled length, `k` times the step length, exceeds the entry-to-exit distance, or the
accumulated alpha exceeds `1.0`. -/
def exitAfter (fl : α → α) (B : Builtins α) (inp : FragInput α) (k : Nat) : Prop :=
  (k : α) * (fragSetupFl fl B inp).delta_dir_len > (fragSetupFl fl B inp).len ∨
    (marchAfterFl fl B inp k).alpha_acc > 1

/-- The sum of `k` steps of length `d` as the loop forms it: from `0`, one addition a
sample, each rounded. -/
def runningLength (fl : α → α) (d : α) (k : Nat) : α := (fun l => fl (l + d))^[k] 0

/-- A volume texture with the same sample everywhere. -/
def uniformVolume (c : Vec4 α) : Vec3 α → Vec4 α := fun _ => c

/-- A backface target with the same exit point at every pixel. -/
def uniformTex (p : Vec4 α) : Vec2 α → Vec4 α := fun _ => p

/-- A square root on the rationals: the integer square roots of numerator and denominator
(exact on squares of rationals). -/
def ratSqrt (q : ℚ) : ℚ := (Nat.sqrt q.num.toNat : ℚ) / (Nat.sqrt q.den : ℚ)

/-- Built-ins over the rationals: `ratSqrt`, and `normalize` of a vector of length zero
returning the zero vector. -/
def ratBuiltins : Builtins ℚ := ⟨ratSqrt, ⟨0, 0, 0⟩⟩

/-- A ray from `(0,0,0)` to `(1,0,0)` through a volume of alpha `1.0`, step size `1/4`. -/
def opaqueRay : FragInput ℚ :=
  { tex := uniformTex ⟨1, 0, 0, 1⟩
    volume_tex := uniformVolume ⟨1, 1, 1, 1⟩
    stepsize := 1 / 4
    model_view := ⟨0, 0, 0, 1⟩
    texCoord0 := ⟨0, 0, 0, 1⟩ }

/-- A ray from `(0,0,0)` to `(1,0,0)` through a volume of alpha `0`, step size `1/50`. -/
def transparentRay : FragInput ℚ :=
  { tex := uniformTex ⟨1, 0, 0, 1⟩
    volume_tex := uniformVolume ⟨1, 1, 1, 0⟩
    stepsize := 1 / 50
    model_view := ⟨0, 0, 0, 1⟩
    texCoord0 := ⟨0, 0, 0, 1⟩ }

/-- The square root of `B` is exact: on the non-negative numbers it returns the non-negative
number whose square is the argument. -/
def ExactSqrt (B : Builtins α) : Prop := ∀ t, 0 ≤ t → 0 ≤ B.sqrt t ∧ B.sqrt t * B.sqrt t = t

/-- A binary32 square root: the root truncated to 64 binary digits after the point, then
rounded to binary32. -/
def sqrt32 (q : ℚ) : ℚ := fl32 ((Nat.sqrt ⌊q * 2 ^ 128⌋₊ : ℚ) / 2 ^ 64)

/-- Built-ins of binary32 arithmetic: `sqrt32`, and `normalize` of a vector of length zero
returning the zero vector. -/
def float32Builtins : Builtins ℚ := ⟨sqrt32, ⟨0, 0, 0⟩⟩

/-- A ray of length `1/2`, from `(0,0,0)` to `(1/2,0,0)`, through a volume of alpha `0`,
with the default step size of the program. -/
def halfRay : FragInput ℚ :=
  { tex := uniformTex ⟨1 / 2, 0, 0, 1⟩
    volume_tex := uniformVolume ⟨1, 1, 1, 0⟩
    stepsize := stepsizeDefault
    model_view := ⟨0, 0, 0, 1⟩
    texCoord0 := ⟨0, 0, 0, 1⟩ }

end Fixtures

/-! ## The proxy geometry -/

/-- The immediate-mode commands `drawQuads` issues (lines 215-272); `glBegin` is always
`glBegin(GL_QUADS)` and `glMultiTexCoord3fARB` always addresses `GL_TEXTURE1_ARB`. -/
inductive GLCommand (α : Type) where
  | glBegin : GLCommand α
  | glNormal3f (x y z : α) : GLCommand α
  | glColor3f (x y z : α) : GLCommand α
  | glMultiTexCoord3fARB (x y z : α) : GLCommand α
  | glVertex3f (x y z : α) : GLCommand α
  | glEnd : GLCommand α

/-- A vertex as OpenGL records it at `glVertex3f`: the position and the current normal,
colour and texture coordinate of unit 1. -/
structure GLVertex (α : Type) where
  position : Vec3 α
  normal : Vec3 α
  color : Vec3 α
  texCoord1 : Vec3 α

/-- A quad of `GL_QUADS`: four consecutive vertices, in the order they were issued. -/
structure Quad (α : Type) where
  v0 : GLVertex α
  v1 : GLVertex α
  v2 : GLVertex α
  v3 : GLVertex α

/-- The state of OpenGL's primitive assembly for `GL_QUADS`: the current normal, colour and
texture coordinate, the vertices of the quad under way, and the quads completed. -/
structure Assembly (α : Type) where
  normal : Vec3 α
  color : Vec3 α
  texCoord1 : Vec3 α
  pending : List (GLVertex α)
  quads : List (Quad α)

/-- The faces of the box, named as the comments of `drawQuads` name them: back `z = 0`,
front `z = z`, top `y = y`, bottom `y = 0`, left `x = 0`, right `x = x`. -/
inductive Face where
  | back
  | front
  | top
  | bottom
  | left
  | right
  deriving DecidableEq

/-- The faces in the order `drawQuads` draws them. -/
def quadFaces : List Face :=
  [Face.back, Face.front, Face.top, Face.bottom, Face.left, Face.right]

section Geometry

variable {α : Type} [LinearOrderedField α]

/-- The function `vertex` (lines 215-220). -/
def vertex (x y z : α) : List (GLCommand α) :=
  [GLCommand.glColor3f x y z, GLCommand.glMultiTexCoord3fARB x y z, GLCommand.glVertex3f x y z]

/-- The function `drawQuads` (lines 225-272): the commands it issues, in order. -/
def drawQuads (x y z : α) : List (GLCommand α) :=
  [GLCommand.glBegin]
  -- Back side
  ++ [GLCommand.glNormal3f 0 0 (-1)]
  ++ vertex 0 0 0 ++ vertex 0 y 0 ++ vertex x y 0 ++ vertex x 0 0
  -- Front side
  ++ [GLCommand.glNormal3f 0 0 1]
  ++ vertex 0 0 z ++ vertex x 0 z ++ vertex x y z ++ vertex 0 y z
  -- Top side
  ++ [GLCommand.glNormal3f 0 1 0]
  ++ vertex 0 y 0 ++ vertex 0 y z ++ vertex x y z ++ vertex x y 0
  -- Bottom side
  ++ [GLCommand.glNormal3f 0 (-1) 0]
  ++ vertex 0 0 0 ++ vertex x 0 0 ++ vertex x 0 z ++ vertex 0 0 z
  -- Left side
  ++ [GLCommand.glNormal3f (-1) 0 0]
  ++ vertex 0 0 0 ++ vertex 0 0 z ++ vertex 0 y z ++ vertex 0 y 0
  -- Right side
  ++ [GLCommand.glNormal3f 1 0 0]
  ++ vertex x 0 0 ++ vertex x y 0 ++ vertex x y z ++ vertex x 0 z
  ++ [GLCommand.glEnd]

/-- OpenGL's initial current normal `(0,0,1)`, colour `(1,1,1)` and texture coordinate
`(0,0,0)`, with no vertex and no quad yet. -/
def Assembly.init : Assembly α := ⟨⟨0, 0, 1⟩, ⟨1, 1, 1⟩, ⟨0, 0, 0⟩, [], []⟩

/-- The effect of one command on the primitive assembly: the attribute commands set the
current attribute, `glVertex3f` records a vertex and completes a quad with every fourth. -/
def Assembly.step (s : Assembly α) : GLCommand α → Assembly α
  | GLCommand.glBegin => { s with pending := [] }
  | GLCommand.glEnd => { s with pending := [] }
  | GLCommand.glNormal3f x y z => { s with normal := ⟨x, y, z⟩ }
  | GLCommand.glColor3f x y z => { s with color := ⟨x, y, z⟩ }
  | GLCommand.glMultiTexCoord3fARB x y z => { s with texCoord1 := ⟨x, y, z⟩ }
  | GLCommand.glVertex3f x y z =>
    let v : GLVertex α := ⟨⟨x, y, z⟩, s.normal, s.color, s.texCoord1⟩
    match s.pending with
    | [a, b, c] => { s with pending := [], quads := s.quads ++ [⟨a, b, c, v⟩] }
    | p => { s with pending := p ++ [v] }

/-- The quads a sequence of commands draws. -/
def assembleQuads (cmds : List (GLCommand α)) : List (Quad α) :=
  (cmds.foldl Assembly.step Assembly.init).quads

/-- Component-wise difference of two `vec3`. -/
def Vec3.sub (u v : Vec3 α) : Vec3 α := ⟨u.x - v.x, u.y - v.y, u.z - v.z⟩

/-- The cross product. -/
def Vec3.cross (u v : Vec3 α) : Vec3 α :=
  ⟨u.y * v.z - u.z * v.y, u.z * v.x - u.x * v.z, u.x * v.y - u.y * v.x⟩

/-- The dot product. -/
def Vec3.dot (u v : Vec3 α) : α := u.x * v.x + u.y * v.y + u.z * v.z

/-- A corner of the box from `(0,0,0)` to `(x,y,z)`. -/
def isBoxCorner (x y z : α) (v : Vec3 α) : Prop :=
  (v.x = 0 ∨ v.x = x) ∧ (v.y = 0 ∨ v.y = y) ∧ (v.z = 0 ∨ v.z = z)

/-- The plane of a face of the box from `(0,0,0)` to `(x,y,z)`. -/
def onFace (x y z : α) : Face → Vec3 α → Prop
  | Face.back, v => v.z = 0
  | Face.front, v => v.z = z
  | Face.top, v => v.y = y
  | Face.bottom, v => v.y = 0
  | Face.left, v => v.x = 0
  | Face.right, v => v.x = x

/-- The unit normal of a face that points away from the box. -/
def outwardNormal : Face → Vec3 α
  | Face.back => ⟨0, 0, -1⟩
  | Face.front => ⟨0, 0, 1⟩
  | Face.top => ⟨0, 1, 0⟩
  | Face.bottom => ⟨0, -1, 0⟩
  | Face.left => ⟨-1, 0, 0⟩
  | Face.right => ⟨1, 0, 0⟩

/-- The positions of the four vertices of a quad, in order. -/
def Quad.positions (q : Quad α) : List (Vec3 α) :=
  [q.v0.position, q.v1.position, q.v2.position, q.v3.position]

/-- What the claim on the proxy geometry asks of the quad drawn for the face `f` of the box
from `(0,0,0)` to `(x,y,z)`: its four vertices are distinct and are exactly the corners of
the box in the plane of `f`; the normal declared for them is the outward normal of `f`,
which points from the centre of the box to each of them; the cross product of the first two
edges `(v1 - v0) x (v2 - v0)`, and of the next two `(v2 - v0) x (v3 - v0)`, is a positive
multiple of that normal; the texture coordinate of each vertex is its position. -/
def FaceQuad (x y z : α) (f : Face) (q : Quad α) : Prop :=
  q.positions.Nodup ∧
  (∀ v, v ∈ q.positions ↔ isBoxCorner x y z v ∧ onFace x y z f v) ∧
  (q.v0.normal = outwardNormal f ∧ q.v1.normal = outwardNormal f ∧
    q.v2.normal = outwardNormal f ∧ q.v3.normal = outwardNormal f) ∧
  (∀ v ∈ q.positions, 0 < (outwardNormal f).dot (v.sub ⟨x / 2, y / 2, z / 2⟩)) ∧
  (∃ c, 0 < c ∧
    (q.v1.position.sub q.v0.position).cross (q.v2.position.sub q.v0.position) =
      (outwardNormal f).scale c) ∧
  (∃ c, 0 < c ∧
    (q.v2.position.sub q.v0.position).cross (q.v3.position.sub q.v0.position) =
      (outwardNormal f).scale c) ∧
  (q.v0.texCoord1 = q.v0.position ∧ q.v1.texCoord1 = q.v1.position ∧
    q.v2.texCoord1 = q.v2.position ∧ q.v3.texCoord1 = q.v3.position)

end Geometry

/-! ## Shader set-up and the frame loop -/

/-- The two shader stages `compile_shaders` adds. -/
inductive ShaderType where
  | GL_VERTEX_SHADER
  | GL_FRAGMENT_SHADER
  deriving DecidableEq

/-- The messages the program writes to `cout` on a failure. -/
inductive Message where
  | errorCreatingShaderType (t : ShaderType)
  | errorCompilingShaderType (t : ShaderType)
  | errorCreatingShaderProgram
  | errorLinkingShaderProgram
  | invalidShaderProgram
  | driverDoesNotSupportShadingLanguage
  deriving DecidableEq

/-- What the OpenGL implementation answers to the program: whether the four extensions
tested at lines 377-380 are all present, the names `glCreateProgram` and `glCreateShader`
return (0 on failure), and the compile, link and validate status (the latter for each
frame). -/
structure Driver where
  shadingLanguage : Bool
  glCreateProgram : Nat
  glCreateShader : ShaderType → Nat
  compileStatus : ShaderType → Bool
  linkStatus : Bool
  validateStatus : Nat → Bool

/-- The steps of a run that bear on shader set-up and drawing, in the order they happen.
Calls that neither fail nor branch (texture parameters, uniforms, bindings) are left out;
`createRenderTargets` stands for lines 394-421 of `init`, `drawQuads` for the draw of the
proxy geometry at line 603. -/
inductive Event where
  | cout (m : Message)
  | exit (status : Nat)
  | glCreateShader (t : ShaderType)
  | glCompileShader (t : ShaderType)
  | glAttachShader (t : ShaderType)
  | glCreateProgram
  | glLinkProgram
  | glValidateProgram
  | glUseProgram (program : Nat)
  | create_volumetexture
  | createRenderTargets
  | glutMainLoop
  | render_backface
  | drawQuads
  | render_buffer_to_screen
  | glutSwapBuffers
  deriving DecidableEq

/-- The steps of a function that may end the process with `exit`. -/
structure Run where
  events : List Event
  exited : Bool

/-- The function `add_shader` (lines 116-142). -/
def add_shader (d : Driver) (t : ShaderType) : List Event :=
  Event.glCreateShader t ::
    (if d.glCreateShader t = 0 then [Event.cout (Message.errorCreatingShaderType t)]
     else
      Event.glCompileShader t ::
        (if !d.compileStatus t then [Event.cout (Message.errorCompilingShaderType t)]
         else [Event.glAttachShader t]))

/-- The function `compile_shaders` (lines 147-175). -/
def compile_shaders (d : Driver) : List Event :=
  Event.glCreateProgram ::
    (if d.glCreateProgram = 0 then [Event.cout Message.errorCreatingShaderProgram]
     else
      add_shader d ShaderType.GL_VERTEX_SHADER ++ add_shader d ShaderType.GL_FRAGMENT_SHADER ++
        Event.glLinkProgram ::
          (if !d.linkStatus then [Event.cout Message.errorLinkingShaderProgram] else []))

/-- The function `validate_shader` (lines 180-193), called in the frame `frame`. -/
def validate_shader (d : Driver) (frame : Nat) : List Event :=
  Event.glValidateProgram ::
    (if !d.validateStatus frame then [Event.cout Message.invalidShaderProgram] else [])

/-- The function `init` (lines 365-423). -/
def init (d : Driver) : Run :=
  if !d.shadingLanguage then
    ⟨[Event.cout Message.driverDoesNotSupportShadingLanguage, Event.exit 1], true⟩
  else
    ⟨Event.create_volumetexture :: (compile_shaders d ++ [Event.createRenderTargets]), false⟩

/-- The function `raycasting_pass` (lines 570-611), called in the frame `frame`; the global
`g_shaderProgram` holds what `glCreateProgram` returned. -/
def raycasting_pass (d : Driver) (frame : Nat) : List Event :=
  Event.glUseProgram d.glCreateProgram ::
    (validate_shader d frame ++ [Event.drawQuads, Event.glUseProgram 0])

/-- The function `display` (lines 616-633), called for the frame `frame`. -/
def display (d : Driver) (frame : Nat) : List Event :=
  Event.render_backface ::
    (raycasting_pass d frame ++ [Event.render_buffer_to_screen, Event.glutSwapBuffers])

/-- The function `main` (lines 638-654) up to the end of the frame `frames - 1`: `init`,
then `glutMainLoop`, which displays one frame after the other; nothing follows an `exit`. -/
def main (d : Driver) (frames : Nat) : List Event :=
  if (init d).exited then (init d).events
  else (init d).events ++ Event.glutMainLoop :: (List.range frames).flatMap (display d)

/-- Compiling, linking or validating the shader program fails. -/
def shaderSetupFails (d : Driver) : Prop :=
  (∃ t, d.compileStatus t = false) ∨ d.linkStatus = false ∨ ∃ frame, d.validateStatus frame = false

/-- A driver that supports the shading language and on which the fragment shader does not
compile, the program does not link and does not validate. -/
def brokenShaderDriver : Driver :=
  { shadingLanguage := true
    glCreateProgram := 1
    glCreateShader := fun _ => 2
    compileStatus := fun t => decide (t = ShaderType.GL_VERTEX_SHADER)
    linkStatus := false
    validateStatus := fun _ => false }

/-! ## The ray-march loop: general facts -/

section ShaderFacts

variable {α : Type} [LinearOrderedField α]

theorem marchBody_samples (vt : Vec3 α → Vec4 α) (st : α) (r : Ray α) (s : March α) :
    (marchBody vt st r s).samples = s.samples + 1 := rfl

theorem marchBody_alpha (vt : Vec3 α → Vec4 α) (st : α) (r : Ray α) (s : March α) :
    (marchBody vt st r s).alpha_acc = s.alpha_acc + (vt s.vect).w * st := rfl

theorem iterate_samples (vt : Vec3 α → Vec4 α) (st : α) (r : Ray α) (s : March α) (k : Nat) :
    ((marchBody vt st r)^[k] s).samples = s.samples + k := by
  induction k with
  | zero => simp
  | succ k ih => rw [Function.iterate_succ_apply', marchBody_samples, ih]; omega

/-- The loop with `n > 0` iterations left runs the body `m` times, `1 ≤ m ≤ n`: the test of
the `break` fails after each of the first `m - 1` executions and, when `m < n`, holds after
the last one. -/
theorem rayMarch_spec (vt : Vec3 α → Vec4 α) (st : α) (r : Ray α) :
    ∀ (n : Nat) (s : March α), 0 < n →
      ∃ m, 1 ≤ m ∧ m ≤ n ∧ rayMarch vt st r n s = (marchBody vt st r)^[m] s ∧
        (∀ k, 1 ≤ k → k < m → ¬ marchStop r ((marchBody vt st r)^[k] s)) ∧
        (m < n → marchStop r ((marchBody vt st r)^[m] s)) := by
  intro n
  induction n with
  | zero => intro s h; omega
  | succ n ih =>
    intro s _
    by_cases hstop : marchStop r (marchBody vt st r s)
    · refine ⟨1, le_refl 1, by omega, ?_, ?_, ?_⟩
      · simp [rayMarch, hstop]
      · intro k h1 h2; omega
      · intro _; simpa using hstop
    · rcases Nat.eq_zero_or_pos n with hn | hn
      · subst hn
        refine ⟨1, le_refl 1, le_refl 1, ?_, ?_, ?_⟩
        · simp [rayMarch]
        · intro k h1 h2; omega
        · intro h; omega
      · obtain ⟨m, hm1, hmn, heq, hbefore, hlast⟩ := ih (marchBody vt st r s) hn
        refine ⟨m + 1, by omega, by omega, ?_, ?_, ?_⟩
        · rw [Function.iterate_succ_apply]
          simp only [rayMarch, hstop, if_false]
          exact heq
        · intro k h1 h2
          rcases Nat.eq_or_lt_of_le h1 with h | h
          · subst h; simpa using hstop
          · obtain ⟨j, rfl⟩ : ∃ j, k = j + 1 := ⟨k - 1, by omega⟩
            rw [Function.iterate_succ_apply]
            exact hbefore j (by omega) (by omega)
        · intro h
          rw [Function.iterate_succ_apply]
          exact hlast (by omega)

/-- The run of the loop of `frag`, in terms of the number of samples it takes. -/
theorem fragMarch_spec (B : Builtins α) (inp : FragInput α) :
    1 ≤ (fragMarch B inp).samples ∧ (fragMarch B inp).samples ≤ 450 ∧
      fragMarch B inp = marchAfter B inp (fragMarch B inp).samples ∧
      (∀ k, 1 ≤ k → k < (fragMarch B inp).samples →
        ¬ marchStop (fragSetup B inp) (marchAfter B inp k)) ∧
      ((fragMarch B inp).samples < 450 →
        marchStop (fragSetup B inp) (marchAfter B inp (fragMarch B inp).samples)) := by
  obtain ⟨m, hm1, hmn, heq, hbefore, hlast⟩ :=
    rayMarch_spec inp.volume_tex inp.stepsize (fragSetup B inp) 450
      (marchInit (fragSetup B inp)) (by norm_num)
  have hs : (fragMarch B inp).samples = m := by
    unfold fragMarch
    rw [heq, iterate_samples]
    simp [marchInit]
  rw [hs]
  refine ⟨hm1, hmn, ?_, hbefore, hlast⟩
  unfold fragMarch marchAfter
  exact heq

theorem marchAfter_succ (B : Builtins α) (inp : FragInput α) (k : Nat) :
    marchAfter B inp (k + 1) =
      marchBody inp.volume_tex inp.stepsize (fragSetup B inp) (marchAfter B inp k) := by
  unfold marchAfter
  rw [Function.iterate_succ_apply']

end ShaderFacts

/-! ## The claims on the fragment program -/

section ShaderClaims

variable {α : Type} [LinearOrderedField α]

/-- C1: for every ray, every volume whose samples have alpha at least 0 and every step size
in `[1/200, 1/4]`, one execution of the loop body never lowers the accumulated alpha (from
any state, hence after each iteration of the run), and the loop is left after at most 450
executions of its body, in the state these executions produce. -/
theorem frag_alpha_monotone_capped (B : Builtins α) (inp : FragInput α)
    (halpha : ∀ p, 0 ≤ (inp.volume_tex p).w)
    (hlo : 1 / 200 ≤ inp.stepsize) (_hhi : inp.stepsize ≤ 1 / 4) :
    (∀ s : March α,
      s.alpha_acc ≤ (marchBody inp.volume_tex inp.stepsize (fragSetup B inp) s).alpha_acc) ∧
    (∀ k, (marchAfter B inp k).alpha_acc ≤ (marchAfter B inp (k + 1)).alpha_acc) ∧
    (fragMarch B inp).samples ≤ 450 ∧
    fragMarch B inp = marchAfter B inp (fragMarch B inp).samples := by
  have hst : (0 : α) ≤ inp.stepsize := le_trans (by norm_num) hlo
  have hbody : ∀ s : March α,
      s.alpha_acc ≤ (marchBody inp.volume_tex inp.stepsize (fragSetup B inp) s).alpha_acc := by
    intro s
    rw [marchBody_alpha]
    exact le_add_of_nonneg_right (mul_nonneg (halpha _) hst)
  refine ⟨hbody, ?_, (fragMarch_spec B inp).2.1, (fragMarch_spec B inp).2.2.1⟩
  intro k
  rw [marchAfter_succ]
  exact hbody _

/-- Witness of C1: the opaque ray with step size `1/4`. -/
theorem frag_alpha_monotone_capped_witness :
    (∀ p, 0 ≤ (opaqueRay.volume_tex p).w) ∧ (1 / 200 ≤ opaqueRay.stepsize) ∧
    (opaqueRay.stepsize ≤ 1 / 4) ∧
    ((∀ s : March ℚ, s.alpha_acc ≤
        (marchBody opaqueRay.volume_tex opaqueRay.stepsize
          (fragSetup ratBuiltins opaqueRay) s).alpha_acc) ∧
      (∀ k, (marchAfter ratBuiltins opaqueRay k).alpha_acc ≤
        (marchAfter ratBuiltins opaqueRay (k + 1)).alpha_acc) ∧
      (fragMarch ratBuiltins opaqueRay).samples ≤ 450 ∧
      fragMarch ratBuiltins opaqueRay =
        marchAfter ratBuiltins opaqueRay (fragMarch ratBuiltins opaqueRay).samples) :=
  have h1 : ∀ p, 0 ≤ (opaqueRay.volume_tex p).w := by
    intro p; simp [opaqueRay, uniformVolume]
  have h2 : (1 / 200 : ℚ) ≤ opaqueRay.stepsize := by simp [opaqueRay]; norm_num
  have h3 : opaqueRay.stepsize ≤ (1 / 4 : ℚ) := by simp [opaqueRay]
  ⟨h1, h2, h3, frag_alpha_monotone_capped ratBuiltins opaqueRay h1 h2 h3⟩

theorem marchAfter_col_of_alpha_zero (B : Builtins α) (inp : FragInput α)
    (h : ∀ p, (inp.volume_tex p).w = 0) (k : Nat) :
    (marchAfter B inp k).col_acc = ⟨0, 0, 0, 0⟩ := by
  induction k with
  | zero => rfl
  | succ k ih =>
    rw [marchAfter_succ]
    simp [marchBody, ih, h, Vec4.add, Vec4.scale, Vec4.times]

/-- C3: for every volume whose samples all have alpha 0, and every entry point, exit point
and step size, the colour the fragment program writes is `(0,0,0,0)`, the clear colour. -/
theorem frag_transparent_volume (B : Builtins α) (inp : FragInput α)
    (h : ∀ p, (inp.volume_tex p).w = 0) : frag B inp = clearColor := by
  unfold frag
  rw [(fragMarch_spec B inp).2.2.1, marchAfter_col_of_alpha_zero B inp h]
  rfl

/-- Witness of C3: a ray through a volume of alpha 0. -/
theorem frag_transparent_volume_witness :
    (∀ p, (transparentRay.volume_tex p).w = 0) ∧
      frag ratBuiltins transparentRay = clearColor :=
  have h : ∀ p, (transparentRay.volume_tex p).w = 0 := by
    intro p; simp [transparentRay, uniformVolume]
  ⟨h, frag_transparent_volume ratBuiltins transparentRay h⟩

end ShaderClaims

/-! ## Binary floating-point rounding: general facts -/

section RoundingFacts

theorem roundHalfEven_le (y : ℚ) (n : ℤ) (h : y ≤ n) : roundHalfEven y ≤ n := by
  have hf : ⌊y⌋ ≤ n := by
    have : (⌊y⌋ : ℚ) ≤ n := le_trans (Int.floor_le y) h
    exact_mod_cast this
  unfold roundHalfEven
  have hstep : ¬ (y - ⌊y⌋ < 1 / 2) → ⌊y⌋ + 1 ≤ n := by
    intro hn
    have hlt : y < n := by
      rcases lt_or_eq_of_le h with h1 | h1
      · exact h1
      · exfalso
        apply hn
        rw [h1, Int.floor_intCast]
        norm_num
    have : ⌊y⌋ < n := Int.floor_lt.mpr hlt
    omega
  split_ifs with h1 h2 h3
  · exact hf
  · exact hstep h1
  · exact hf
  · exact hstep h1

theorem le_roundHalfEven (y : ℚ) (n : ℤ) (h : (n : ℚ) ≤ y) : n ≤ roundHalfEven y := by
  have hf : n ≤ ⌊y⌋ := Int.le_floor.mpr h
  unfold roundHalfEven
  split_ifs <;> omega

theorem roundHalfEven_eq (y : ℚ) (n : ℤ)
    (h : ((n : ℚ) - 1 / 2 < y ∧ y < n + 1 / 2) ∨ (y = n + 1 / 2 ∧ n % 2 = 0) ∨
      (y = n - 1 / 2 ∧ n % 2 = 0)) : roundHalfEven y = n := by
  rcases h with ⟨h1, h2⟩ | ⟨h1, h2⟩ | ⟨h1, h2⟩
  · rcases le_or_lt (n : ℚ) y with hge | hlt
    · have hf : ⌊y⌋ = n := Int.floor_eq_iff.mpr ⟨hge, by linarith⟩
      unfold roundHalfEven
      rw [hf, if_pos (by linarith)]
    · have hf : ⌊y⌋ = n - 1 := Int.floor_eq_iff.mpr ⟨by push_cast; linarith, by push_cast; linarith⟩
      unfold roundHalfEven
      rw [hf, if_neg (by push_cast; linarith), if_pos (by push_cast; linarith)]
      omega
  · have hf : ⌊y⌋ = n := Int.floor_eq_iff.mpr ⟨by linarith, by linarith⟩
    unfold roundHalfEven
    rw [hf, if_neg (by linarith), if_neg (by linarith), if_pos h2]
  · have hf : ⌊y⌋ = n - 1 := Int.floor_eq_iff.mpr ⟨by push_cast; linarith, by push_cast; linarith⟩
    unfold roundHalfEven
    have hodd : ¬ (n - 1) % 2 = 0 := by omega
    rw [hf, if_neg (by push_cast; linarith), if_neg (by push_cast; linarith), if_neg hodd]
    omega

theorem log_eq_of_binade (q : ℚ) (e : ℤ) (h1 : (2 : ℚ) ^ e ≤ q) (h2 : q < 2 ^ (e + 1)) :
    Int.log 2 |q| = e := by
  have hq : 0 < q := lt_of_lt_of_le (by positivity) h1
  rw [abs_of_pos hq]
  have hb : 1 < 2 := by norm_num
  have ha : e ≤ Int.log 2 q := (Int.zpow_le_iff_le_log hb hq).mp (by exact_mod_cast h1)
  have hc : Int.log 2 q < e + 1 := (Int.lt_zpow_iff_log_lt hb hq).mp (by exact_mod_cast h2)
  omega

theorem roundTo_binade (p : ℕ) (q : ℚ) (e : ℤ) (h1 : (2 : ℚ) ^ e ≤ q) (h2 : q < 2 ^ (e + 1)) :
    roundTo p q = roundHalfEven (q / 2 ^ (e - ((p : ℤ) - 1))) * 2 ^ (e - ((p : ℤ) - 1)) := by
  have hq : 0 < q := lt_of_lt_of_le (by positivity) h1
  unfold roundTo
  rw [if_neg (ne_of_gt hq), log_eq_of_binade q e h1 h2]

theorem roundTo_pos_eq (p : ℕ) (q : ℚ) (hq : 0 < q) :
    (2 : ℚ) ^ Int.log 2 |q| ≤ q ∧
    roundTo p q = roundHalfEven (q / 2 ^ (Int.log 2 |q| - ((p : ℤ) - 1))) *
      2 ^ (Int.log 2 |q| - ((p : ℤ) - 1)) := by
  constructor
  · rw [abs_of_pos hq]
    have := Int.zpow_log_le_self (b := 2) (r := q) (by norm_num) hq
    exact_mod_cast this
  · unfold roundTo
    rw [if_neg (ne_of_gt hq)]

/-- A number `m * 2^k` with `m < 2^p` that is at least `2^e` is a multiple of `2^(e-(p-1))`. -/
theorem dyadic_multiple (p m : ℕ) (k e : ℤ) (hm : m < 2 ^ p)
    (hle : (2 : ℚ) ^ e ≤ m * 2 ^ k) :
    ∃ n : ℤ, (m : ℚ) * 2 ^ k = n * 2 ^ (e - ((p : ℤ) - 1)) := by
  have hmq : (m : ℚ) < 2 ^ (p : ℤ) := by
    rw [zpow_natCast]
    exact_mod_cast hm
  have hlt : (2 : ℚ) ^ e < 2 ^ ((p : ℤ) + k) := by
    rw [zpow_add₀ (by norm_num : (2 : ℚ) ≠ 0)]
    exact lt_of_le_of_lt hle (mul_lt_mul_of_pos_right hmq (by positivity))
  have hek : e < (p : ℤ) + k := (zpow_lt_zpow_iff_right₀ (by norm_num : (1 : ℚ) < 2)).mp hlt
  obtain ⟨j, hj⟩ : ∃ j : ℕ, k - (e - ((p : ℤ) - 1)) = j :=
    ⟨(k - (e - ((p : ℤ) - 1))).toNat, by omega⟩
  refine ⟨(m : ℤ) * 2 ^ j, ?_⟩
  have hk : k = (j : ℤ) + (e - ((p : ℤ) - 1)) := by omega
  rw [hk, zpow_add₀ (by norm_num : (2 : ℚ) ≠ 0), zpow_natCast]
  push_cast
  ring

theorem roundTo_le (p m : ℕ) (k : ℤ) (x : ℚ) (hm : m < 2 ^ p) (hx : 0 < x)
    (hxr : x ≤ m * 2 ^ k) : roundTo p x ≤ m * 2 ^ k := by
  obtain ⟨hlog, heq⟩ := roundTo_pos_eq p x hx
  obtain ⟨n, hn⟩ := dyadic_multiple p m k _ hm (le_trans hlog hxr)
  rw [heq, hn]
  have hu : (0 : ℚ) < 2 ^ (Int.log 2 |x| - ((p : ℤ) - 1)) := by positivity
  have : roundHalfEven (x / 2 ^ (Int.log 2 |x| - ((p : ℤ) - 1))) ≤ n := by
    apply roundHalfEven_le
    rw [div_le_iff₀ hu, ← hn]
    exact hxr
  exact mul_le_mul_of_nonneg_right (by exact_mod_cast this) (le_of_lt hu)

theorem le_roundTo (p m : ℕ) (k : ℤ) (x : ℚ) (hp : 0 < p) (hm : m < 2 ^ p) (hx : 0 < x)
    (hrx : (m : ℚ) * 2 ^ k ≤ x) : (m : ℚ) * 2 ^ k ≤ roundTo p x := by
  obtain ⟨hlog, heq⟩ := roundTo_pos_eq p x hx
  have hu : (0 : ℚ) < 2 ^ (Int.log 2 |x| - ((p : ℤ) - 1)) := by positivity
  rw [heq]
  rcases le_or_lt ((2 : ℚ) ^ Int.log 2 |x|) ((m : ℚ) * 2 ^ k) with hcase | hcase
  · obtain ⟨n, hn⟩ := dyadic_multiple p m k _ hm hcase
    rw [hn]
    have : n ≤ roundHalfEven (x / 2 ^ (Int.log 2 |x| - ((p : ℤ) - 1))) := by
      apply le_roundHalfEven
      rw [le_div_iff₀ hu, ← hn]
      exact hrx
    exact mul_le_mul_of_nonneg_right (by exact_mod_cast this) (le_of_lt hu)
  · have h1 : (1 : ℕ) < 2 ^ p := Nat.one_lt_two_pow (by omega)
    obtain ⟨n, hn⟩ := dyadic_multiple p 1 (Int.log 2 |x|) (Int.log 2 |x|) h1
      (by rw [Nat.cast_one, one_mul])
    have : n ≤ roundHalfEven (x / 2 ^ (Int.log 2 |x| - ((p : ℤ) - 1))) := by
      apply le_roundHalfEven
      rw [le_div_iff₀ hu, ← hn]
      simpa using hlog
    have h2 : (n : ℚ) * 2 ^ (Int.log 2 |x| - ((p : ℤ) - 1)) ≤
        roundHalfEven (x / 2 ^ (Int.log 2 |x| - ((p : ℤ) - 1))) *
          2 ^ (Int.log 2 |x| - ((p : ℤ) - 1)) :=
      mul_le_mul_of_nonneg_right (by exact_mod_cast this) (le_of_lt hu)
    rw [← hn] at h2
    simp only [Nat.cast_one, one_mul] at h2
    exact le_trans (le_of_lt hcase) h2

theorem roundTo_zero (p : ℕ) : roundTo p 0 = 0 := by
  unfold roundTo
  rw [if_pos rfl]

theorem roundTo_dyadic (p m : ℕ) (k : ℤ) (hp : 0 < p) (hm : m < 2 ^ p) :
    roundTo p (m * 2 ^ k) = m * 2 ^ k := by
  rcases Nat.eq_zero_or_pos m with h0 | hpos
  · subst h0
    simp [roundTo_zero]
  · have hx : (0 : ℚ) < m * 2 ^ k := by positivity
    exact le_antisymm (roundTo_le p m k _ hm hx (le_refl _))
      (le_roundTo p m k _ hp hm hx (le_refl _))

theorem fl32_dyadic (m k : ℕ) (hm : m < 2 ^ 24) : fl32 ((m : ℚ) / 2 ^ k) = m / 2 ^ k := by
  have h : (m : ℚ) / 2 ^ k = m * 2 ^ (-(k : ℤ)) := by
    rw [zpow_neg, zpow_natCast, div_eq_mul_inv]
  rw [h]
  exact roundTo_dyadic 24 m _ (by norm_num) hm

theorem fl64_dyadic (m k : ℕ) (hm : m < 2 ^ 53) : fl64 ((m : ℚ) / 2 ^ k) = m / 2 ^ k := by
  have h : (m : ℚ) / 2 ^ k = m * 2 ^ (-(k : ℤ)) := by
    rw [zpow_neg, zpow_natCast, div_eq_mul_inv]
  rw [h]
  exact roundTo_dyadic 53 m _ (by norm_num) hm

end RoundingFacts

/-! ## The claims on the step-size control -/

section KeysClaims

theorem fl32_of_eq (q : ℚ) (m k : ℕ) (h : q = m / 2 ^ k) (hm : m < 2 ^ 24) : fl32 q = q := by
  rw [h]; exact fl32_dyadic m k hm

theorem fl64_of_eq (q : ℚ) (m k : ℕ) (h : q = m / 2 ^ k) (hm : m < 2 ^ 53) : fl64 q = q := by
  rw [h]; exact fl64_dyadic m k hm

theorem fl64_step : fl64 (1 / 2048) = 1 / 2048 :=
  fl64_of_eq _ 1 11 (by norm_num) (by norm_num)

theorem fl32_quarter : fl32 (1 / 4) = 1 / 4 :=
  fl32_of_eq _ 1 2 (by norm_num) (by norm_num)

theorem fl64_min : fl64 (1 / 200) = 5764607523034235 / 1152921504606846976 := by
  unfold fl64
  rw [roundTo_binade 53 (1 / 200) (-8) (by norm_num) (by norm_num),
    roundHalfEven_eq _ 5764607523034235 (by norm_num)]
  norm_num

theorem fl32_fl64_min : fl32 (fl64 (1 / 200)) = stepsizeMin := by
  rw [fl64_min]
  unfold fl32 stepsizeMin
  rw [roundTo_binade 24 _ (-8) (by norm_num) (by norm_num),
    roundHalfEven_eq _ 10737418 (by norm_num)]
  norm_num

theorem stepsizeDefault_eq : stepsizeDefault = 5368709 / 268435456 := by
  unfold stepsizeDefault
  have h : fl64 (1 / 50) = 5764607523034235 / 288230376151711744 := by
    unfold fl64
    rw [roundTo_binade 53 (1 / 50) (-6) (by norm_num) (by norm_num),
      roundHalfEven_eq _ 5764607523034235 (by norm_num)]
    norm_num
  rw [h]
  unfold fl32
  rw [roundTo_binade 24 _ (-6) (by norm_num) (by norm_num),
    roundHalfEven_eq _ 10737418 (by norm_num)]
  norm_num


theorem stepsizeMin_pos : (0 : ℚ) < stepsizeMin := by unfold stepsizeMin; norm_num

theorem stepsizeMin_dyadic : stepsizeMin = (5368709 : ℕ) * 2 ^ (-30 : ℤ) := by
  unfold stepsizeMin; norm_num

theorem quarter_dyadic : (1 / 4 : ℚ) = (1 : ℕ) * 2 ^ (-2 : ℤ) := by norm_num

/-- Rounding to binary64 and then to binary32 does not cross `stepsizeMin` from above. -/
theorem stepsizeMin_le_fl (x : ℚ) (h : stepsizeMin ≤ x) : stepsizeMin ≤ fl32 (fl64 x) := by
  have hx : 0 < x := lt_of_lt_of_le stepsizeMin_pos h
  have h1 : stepsizeMin ≤ fl64 x := by
    rw [stepsizeMin_dyadic] at h ⊢
    exact le_roundTo 53 5368709 (-30) x (by norm_num) (by norm_num) hx h
  have h2 : 0 < fl64 x := lt_of_lt_of_le stepsizeMin_pos h1
  rw [stepsizeMin_dyadic] at h1 ⊢
  exact le_roundTo 24 5368709 (-30) _ (by norm_num) (by norm_num) h2 h1

/-- Rounding to binary64 and then to binary32 does not cross `1/4` from below. -/
theorem fl_le_quarter (x : ℚ) (hx : 4844421 / 1073741824 ≤ x) (h : x ≤ 1 / 4) :
    fl32 (fl64 x) ≤ 1 / 4 := by
  have hx0 : 0 < x := lt_of_lt_of_le (by norm_num) hx
  have h1 : fl64 x ≤ 1 / 4 := by
    rw [quarter_dyadic] at h ⊢
    exact roundTo_le 53 1 (-2) x (by norm_num) hx0 h
  have h2 : 0 < fl64 x := by
    have hd : (4844421 / 1073741824 : ℚ) = (4844421 : ℕ) * 2 ^ (-30 : ℤ) := by norm_num
    rw [hd] at hx
    have := le_roundTo 53 4844421 (-30) x (by norm_num) (by norm_num) hx0 hx
    exact lt_of_lt_of_le (by norm_num) this
  rw [quarter_dyadic] at h1 ⊢
  exact roundTo_le 24 1 (-2) _ (by norm_num) h2 h1

theorem keyW_eq (s : ℚ) :
    keyW s = if fl32 (fl64 (s + 1 / 2048)) > 1 / 4 then 1 / 4 else fl32 (fl64 (s + 1 / 2048)) := by
  unfold keyW
  simp only [fl64_step, fl32_quarter]

theorem keyE_eq (s : ℚ) :
    keyE s = if fl32 (fl64 (s - 1 / 2048)) ≤ 5764607523034235 / 1152921504606846976
      then stepsizeMin else fl32 (fl64 (s - 1 / 2048)) := by
  unfold keyE
  simp only [fl64_step, fl64_min]
  rw [← fl64_min, fl32_fl64_min]

theorem keyW_bounds (s : ℚ) (hlo : stepsizeMin ≤ s) (_hhi : s ≤ 1 / 4) :
    stepsizeMin ≤ keyW s ∧ keyW s ≤ 1 / 4 := by
  rw [keyW_eq]
  split_ifs with h
  · constructor
    · unfold stepsizeMin; norm_num
    · exact le_refl _
  · exact ⟨stepsizeMin_le_fl _ (by linarith), not_lt.mp h⟩

theorem keyE_bounds (s : ℚ) (hlo : stepsizeMin ≤ s) (hhi : s ≤ 1 / 4) :
    stepsizeMin ≤ keyE s ∧ keyE s ≤ 1 / 4 := by
  rw [keyE_eq]
  split_ifs with h
  · constructor
    · exact le_refl _
    · unfold stepsizeMin; norm_num
  · constructor
    · have h1 := not_le.mp h
      unfold stepsizeMin
      linarith
    · apply fl_le_quarter
      · unfold stepsizeMin at hlo; linarith
      · linarith


set_option maxRecDepth 8192 in
theorem range_256_split :
    List.range 256 =
      List.range' 0 101 ++ 101 :: (List.range' 102 17 ++ 119 :: List.range' 120 136) := by
  rfl

theorem foldl_processKey_other (gKeys : Nat → Bool) (l : List Nat)
    (h : ∀ i ∈ l, i ≠ 101 ∧ i ≠ 119) (s : ℚ) : l.foldl (processKey gKeys) s = s := by
  induction l generalizing s with
  | nil => rfl
  | cons i l ih =>
    have hi := h i (List.mem_cons_self i l)
    have hstep : processKey gKeys s i = s := by
      unfold processKey
      simp [hi.1, hi.2]
    rw [List.foldl_cons, hstep]
    exact ih (fun j hj => h j (List.mem_cons_of_mem i hj)) s

/-- `ProcessKeys` applies the `'e'` decrement first (code 101), then the `'w'` increment
(code 119), each when its key is held; no other key changes the step size. -/
theorem ProcessKeys_eq (gKeys : Nat → Bool) (s : ℚ) :
    ProcessKeys gKeys s =
      (if gKeys 119 then keyW (if gKeys 101 then keyE s else s)
        else (if gKeys 101 then keyE s else s)) := by
  have h1 : ∀ i ∈ List.range' 0 101, i ≠ 101 ∧ i ≠ 119 := by
    intro i hi; rw [List.mem_range'_1] at hi; omega
  have h2 : ∀ i ∈ List.range' 102 17, i ≠ 101 ∧ i ≠ 119 := by
    intro i hi; rw [List.mem_range'_1] at hi; omega
  have h3 : ∀ i ∈ List.range' 120 136, i ≠ 101 ∧ i ≠ 119 := by
    intro i hi; rw [List.mem_range'_1] at hi; omega
  have he : processKey gKeys s 101 = if gKeys 101 then keyE s else s := by
    unfold processKey
    have e1 : (101 : Nat) ≠ ' '.toNat := by decide
    have e2 : (101 : Nat) ≠ 'w'.toNat := by decide
    have e3 : (101 : Nat) = 'e'.toNat := by decide
    cases gKeys 101 <;> simp [e1, e2, ← e3]
  have hw : ∀ t : ℚ, processKey gKeys t 119 = if gKeys 119 then keyW t else t := by
    intro t
    unfold processKey
    have e1 : (119 : Nat) ≠ ' '.toNat := by decide
    have e2 : (119 : Nat) = 'w'.toNat := by decide
    cases gKeys 119 <;> simp [e1, ← e2]
  unfold ProcessKeys
  rw [range_256_split, List.foldl_append, foldl_processKey_other gKeys _ h1, List.foldl_cons,
    List.foldl_append, foldl_processKey_other gKeys _ h2, List.foldl_cons,
    foldl_processKey_other gKeys _ h3, he, hw]

theorem ProcessKeys_bounds (gKeys : Nat → Bool) (s : ℚ) (hlo : stepsizeMin ≤ s)
    (hhi : s ≤ 1 / 4) : stepsizeMin ≤ ProcessKeys gKeys s ∧ ProcessKeys gKeys s ≤ 1 / 4 := by
  rw [ProcessKeys_eq]
  have hE := keyE_bounds s hlo hhi
  cases gKeys 119 <;> cases gKeys 101 <;> simp only [Bool.false_eq_true, if_false, if_true]
  · exact ⟨hlo, hhi⟩
  · exact hE
  · exact keyW_bounds s hlo hhi
  · exact keyW_bounds _ hE.1 hE.2

theorem runFrames_bounds (frames : List (Nat → Bool)) (s : ℚ)
    (hlo : stepsizeMin ≤ s) (hhi : s ≤ 1 / 4) :
    stepsizeMin ≤ runFrames frames s ∧ runFrames frames s ≤ 1 / 4 := by
  induction frames generalizing s with
  | nil => exact ⟨hlo, hhi⟩
  | cons g frames ih =>
    unfold runFrames
    rw [List.foldl_cons]
    exact ih _ (ProcessKeys_bounds g s hlo hhi).1 (ProcessKeys_bounds g s hlo hhi).2

theorem runFrames_cons (g : Nat → Bool) (fs : List (Nat → Bool)) (s : ℚ) :
    runFrames (g :: fs) s = runFrames fs (ProcessKeys g s) := by
  unfold runFrames
  rw [List.foldl_cons]

theorem runFrames_nil (s : ℚ) : runFrames [] s = s := by
  unfold runFrames
  rw [List.foldl_nil]

theorem runFrames_replicate_succ (g : Nat → Bool) (n : Nat) (s : ℚ) :
    runFrames (List.replicate (n + 1) g) s = ProcessKeys g (runFrames (List.replicate n g) s) := by
  unfold runFrames
  rw [List.replicate_succ', List.foldl_append]
  rfl

theorem ProcessKeys_onlyW (s : ℚ) : ProcessKeys onlyW s = keyW s := by
  rw [ProcessKeys_eq]
  have h1 : onlyW 119 = true := by decide
  have h2 : onlyW 101 = false := by decide
  simp [h1, h2]

theorem ProcessKeys_onlyE (s : ℚ) : ProcessKeys onlyE s = keyE s := by
  rw [ProcessKeys_eq]
  have h1 : onlyE 119 = false := by decide
  have h2 : onlyE 101 = true := by decide
  simp [h1, h2]

/-- A decrement whose result is a binary32 number above the lower clamp is exact. -/
theorem keyE_exact (s : ℚ) (m k : ℕ) (h : s - 1 / 2048 = m / 2 ^ k) (hm : m < 2 ^ 24)
    (hgt : (5764607523034235 / 1152921504606846976 : ℚ) < s - 1 / 2048) :
    keyE s = s - 1 / 2048 := by
  rw [keyE_eq, fl64_of_eq _ m k h (lt_trans hm (by norm_num)), fl32_of_eq _ m k h hm,
    if_neg (not_le.mpr hgt)]

/-- A decrement whose result is a binary32 number at or below the lower clamp stores
`float(1.0/200.0)`. -/
theorem keyE_clamp (s : ℚ) (m k : ℕ) (h : s - 1 / 2048 = m / 2 ^ k) (hm : m < 2 ^ 24)
    (hle : s - 1 / 2048 ≤ (5764607523034235 / 1152921504606846976 : ℚ)) :
    keyE s = stepsizeMin := by
  rw [keyE_eq, fl64_of_eq _ m k h (lt_trans hm (by norm_num)), fl32_of_eq _ m k h hm,
    if_pos hle]

/-- An increment whose result is a binary32 number not above `1/4` is exact. -/
theorem keyW_exact (s : ℚ) (m k : ℕ) (h : s + 1 / 2048 = m / 2 ^ k) (hm : m < 2 ^ 24)
    (hle : s + 1 / 2048 ≤ 1 / 4) : keyW s = s + 1 / 2048 := by
  rw [keyW_eq, fl64_of_eq _ m k h (lt_trans hm (by norm_num)), fl32_of_eq _ m k h hm,
    if_neg (not_lt.mpr hle)]

theorem runFrames_onlyE_below (n : ℕ) (hn : n ≤ 30) :
    runFrames (List.replicate n onlyE) stepsizeDefault =
      ((5368709 - 131072 * n : ℕ) : ℚ) / 2 ^ 28 := by
  induction n with
  | zero => simp [runFrames, stepsizeDefault_eq]; norm_num
  | succ n ih =>
    rw [runFrames_replicate_succ, ih (by omega), ProcessKeys_onlyE]
    have hc : ((5368709 - 131072 * n : ℕ) : ℚ) = 5368709 - 131072 * (n : ℚ) := by
      rw [Nat.cast_sub (by omega)]; push_cast; ring
    have hc1 : ((5368709 - 131072 * (n + 1) : ℕ) : ℚ) = 5368709 - 131072 * ((n : ℚ) + 1) := by
      rw [Nat.cast_sub (by omega)]; push_cast; ring
    have hnq : (n : ℚ) ≤ 29 := by
      have : n ≤ 29 := by omega
      exact_mod_cast this
    have hstep : ((5368709 - 131072 * n : ℕ) : ℚ) / 2 ^ 28 - 1 / 2048 =
        ((5368709 - 131072 * (n + 1) : ℕ) : ℚ) / 2 ^ 28 := by
      rw [hc, hc1]; ring
    rw [keyE_exact _ (5368709 - 131072 * (n + 1)) 28 hstep (by omega)
      (by rw [hstep, hc1]; norm_num; linarith)]
    exact hstep

theorem runFrames_onlyE_31 :
    runFrames (List.replicate 31 onlyE) stepsizeDefault = stepsizeMin := by
  rw [runFrames_replicate_succ, runFrames_onlyE_below 30 (le_refl _), ProcessKeys_onlyE]
  exact keyE_clamp _ 1305477 28 (by norm_num) (by norm_num) (by norm_num)


/-- C5, the claim as stated fails: one frame with `'e'` held takes the step size from
`11/2048`, a binary32 number in `[1/200, 1/4]`, to `float(1.0/200.0)`, which is below `1/200`;
and 31 such frames take it there from the default. -/
theorem stepsize_leaves_exact_bounds :
    ((1 / 200 : ℚ) ≤ 11 / 2048 ∧ (11 / 2048 : ℚ) ≤ 1 / 4 ∧
      runFrames [onlyE] (11 / 2048) = 5368709 / 1073741824) ∧
    runFrames (List.replicate 31 onlyE) stepsizeDefault = 5368709 / 1073741824 ∧
    (5368709 / 1073741824 : ℚ) < 1 / 200 := by
  refine ⟨⟨by norm_num, by norm_num, ?_⟩, ?_, by norm_num⟩
  · rw [runFrames_cons, runFrames_nil, ProcessKeys_onlyE,
      keyE_clamp (11 / 2048) 5 10 (by norm_num) (by norm_num) (by norm_num), stepsizeMin]
  · rw [runFrames_onlyE_31, stepsizeMin]

/-- C5, amended: the lower clamp stores `float(1.0/200.0) = 5368709/1073741824`, which is
below `1/200`. Starting from the default step size `float(1.0/50.0)`, or from any value in
`[5368709/1073741824, 1/4]`, after any finite sequence of `ProcessKeys` frames with any keys
held the step size is in `[5368709/1073741824, 1/4]`, hence strictly positive. -/
theorem stepsize_stays_in_float_bounds (frames : List (Nat → Bool)) :
    (fl32 (fl64 (1 / 200)) = 5368709 / 1073741824 ∧ (5368709 / 1073741824 : ℚ) < 1 / 200 ∧
      stepsizeDefault = 5368709 / 268435456) ∧
    ((5368709 / 1073741824 : ℚ) ≤ runFrames frames stepsizeDefault ∧
      runFrames frames stepsizeDefault ≤ 1 / 4 ∧ 0 < runFrames frames stepsizeDefault) ∧
    (∀ s : ℚ, 5368709 / 1073741824 ≤ s → s ≤ 1 / 4 →
      5368709 / 1073741824 ≤ runFrames frames s ∧ runFrames frames s ≤ 1 / 4 ∧
        0 < runFrames frames s) := by
  have hall : ∀ s : ℚ, 5368709 / 1073741824 ≤ s → s ≤ 1 / 4 →
      5368709 / 1073741824 ≤ runFrames frames s ∧ runFrames frames s ≤ 1 / 4 ∧
        0 < runFrames frames s := by
    intro s hlo hhi
    have h := runFrames_bounds frames s hlo hhi
    exact ⟨h.1, h.2, lt_of_lt_of_le stepsizeMin_pos h.1⟩
  refine ⟨⟨fl32_fl64_min, by norm_num, stepsizeDefault_eq⟩, ?_, hall⟩
  exact hall stepsizeDefault (by rw [stepsizeDefault_eq]; norm_num)
    (by rw [stepsizeDefault_eq]; norm_num)

theorem incremented_87 : incremented 87 = 16771973 / 2 ^ 28 := by
  norm_num [incremented]

theorem incremented_215 : incremented 215 = 16774594 / 2 ^ 27 := by
  norm_num [incremented]

theorem incremented_471 : incremented 471 = 16775905 / 67108864 := by
  norm_num [incremented]

/-- The increment from the 87th to the 88th value rounds: the exact sum `16903045/2^28` lies
half-way between two binary32 numbers and goes to the even one. -/
theorem keyW_incremented_87 : keyW (incremented 87) = incremented 88 := by
  have h88 : incremented 88 = 8451522 / 2 ^ 27 := by norm_num [incremented]
  have hsum : (16771973 / 2 ^ 28 + 1 / 2048 : ℚ) = 16903045 / 2 ^ 28 := by norm_num
  have h32 : fl32 (16903045 / 2 ^ 28) = 8451522 / 2 ^ 27 := by
    unfold fl32
    rw [roundTo_binade 24 _ (-4) (by norm_num) (by norm_num),
      roundHalfEven_eq _ 8451522 (by norm_num)]
    norm_num
  rw [keyW_eq, incremented_87, h88, hsum,
    fl64_of_eq _ 16903045 28 (by norm_num) (by norm_num), h32]
  norm_num

theorem runFrames_onlyW_below (n : ℕ) (hn : n < 472) :
    runFrames (List.replicate n onlyW) stepsizeDefault = incremented n := by
  induction n with
  | zero => simp [runFrames, stepsizeDefault_eq, incremented]; norm_num
  | succ n ih =>
    rw [runFrames_replicate_succ, ih (by omega), ProcessKeys_onlyW]
    have hnq : (n : ℚ) ≤ 470 := by
      have : n ≤ 470 := by omega
      exact_mod_cast this
    rcases Nat.lt_or_ge n 87 with h1 | h1
    · -- both values in the first range
      have e0 : incremented n = ((5368709 + 131072 * n : ℕ) : ℚ) / 2 ^ 28 := by
        unfold incremented; rw [if_pos (by omega)]
      have e1 : incremented (n + 1) = ((5368709 + 131072 * (n + 1) : ℕ) : ℚ) / 2 ^ 28 := by
        unfold incremented; rw [if_pos (by omega)]
      have hstep : incremented n + 1 / 2048 = ((5368709 + 131072 * (n + 1) : ℕ) : ℚ) / 2 ^ 28 := by
        rw [e0]; push_cast; ring
      have hn86 : (n : ℚ) ≤ 86 := by
        have : n ≤ 86 := by omega
        exact_mod_cast this
      rw [keyW_exact _ _ 28 hstep (by omega) (by rw [hstep]; push_cast; norm_num; linarith),
        hstep, e1]
    · rcases Nat.eq_or_lt_of_le h1 with h2 | h2
      · subst h2; exact keyW_incremented_87
      · rcases Nat.lt_or_ge n 215 with h3 | h3
        · obtain ⟨j, rfl⟩ : ∃ j, n = 88 + j := ⟨n - 88, by omega⟩
          have e0 : incremented (88 + j) = ((8451522 + 65536 * j : ℕ) : ℚ) / 2 ^ 27 := by
            unfold incremented
            rw [if_neg (by omega), if_pos (by omega), Nat.add_sub_cancel_left]
          have e1 : incremented (88 + j + 1) = ((8451522 + 65536 * (j + 1) : ℕ) : ℚ) / 2 ^ 27 := by
            unfold incremented
            rw [if_neg (by omega), if_pos (by omega)]
            have : 88 + j + 1 - 88 = j + 1 := by omega
            rw [this]
          have hstep : incremented (88 + j) + 1 / 2048 =
              ((8451522 + 65536 * (j + 1) : ℕ) : ℚ) / 2 ^ 27 := by
            rw [e0]; push_cast; ring
          have hjq : (j : ℚ) ≤ 126 := by
            have : j ≤ 126 := by omega
            exact_mod_cast this
          rw [keyW_exact _ _ 27 hstep (by omega) (by rw [hstep]; push_cast; norm_num; linarith),
            hstep, e1]
        · rcases Nat.eq_or_lt_of_le h3 with h4 | h4
          · subst h4
            have e1 : incremented 216 = 8420065 / 2 ^ 26 := by norm_num [incremented]
            have hstep : incremented 215 + 1 / 2048 = ((8420065 : ℕ) : ℚ) / 2 ^ 26 := by
              rw [incremented_215]; norm_num
            rw [keyW_exact _ _ 26 hstep (by norm_num) (by rw [hstep]; norm_num), hstep, e1]
            norm_num
          · obtain ⟨j, rfl⟩ : ∃ j, n = 216 + j := ⟨n - 216, by omega⟩
            have e0 : incremented (216 + j) = ((8420065 + 32768 * j : ℕ) : ℚ) / 2 ^ 26 := by
              unfold incremented
              rw [if_neg (by omega), if_neg (by omega), Nat.add_sub_cancel_left]
            have e1 : incremented (216 + j + 1) =
                ((8420065 + 32768 * (j + 1) : ℕ) : ℚ) / 2 ^ 26 := by
              unfold incremented
              rw [if_neg (by omega), if_neg (by omega)]
              have : 216 + j + 1 - 216 = j + 1 := by omega
              rw [this]
            have hstep : incremented (216 + j) + 1 / 2048 =
                ((8420065 + 32768 * (j + 1) : ℕ) : ℚ) / 2 ^ 26 := by
              rw [e0]; push_cast; ring
            have hjq : (j : ℚ) ≤ 254 := by
              have : j ≤ 254 := by omega
              exact_mod_cast this
            rw [keyW_exact _ _ 26 hstep (by omega)
              (by rw [hstep]; push_cast; norm_num; linarith), hstep, e1]

/-- An increment that reaches `1/4` or more stores exactly `1/4`. -/
theorem keyW_saturates (s : ℚ) (h : 1 / 4 ≤ s + 1 / 2048) : keyW s = 1 / 4 := by
  have hx : (0 : ℚ) < s + 1 / 2048 := lt_of_lt_of_le (by norm_num) h
  have h1 : (1 / 4 : ℚ) ≤ fl64 (s + 1 / 2048) := by
    rw [quarter_dyadic] at h ⊢
    exact le_roundTo 53 1 (-2) _ (by norm_num) (by norm_num) hx h
  have h2 : (1 / 4 : ℚ) ≤ fl32 (fl64 (s + 1 / 2048)) := by
    have h0 : (0 : ℚ) < fl64 (s + 1 / 2048) := lt_of_lt_of_le (by norm_num) h1
    rw [quarter_dyadic] at h1 ⊢
    exact le_roundTo 24 1 (-2) _ (by norm_num) (by norm_num) h0 h1
  rw [keyW_eq]
  split_ifs with hgt
  · rfl
  · exact le_antisymm (not_lt.mp hgt) h2

theorem runFrames_onlyW_above (n : ℕ) (hn : 472 ≤ n) :
    runFrames (List.replicate n onlyW) stepsizeDefault = 1 / 4 := by
  induction n with
  | zero => omega
  | succ n ih =>
    rw [runFrames_replicate_succ, ProcessKeys_onlyW]
    rcases Nat.lt_or_ge n 472 with h | h
    · have hn471 : n = 471 := by omega
      rw [runFrames_onlyW_below n h, hn471, incremented_471]
      exact keyW_saturates _ (by norm_num)
    · rw [ih h]
      exact keyW_saturates _ (by norm_num)

/-- The values of `incremented` lie just below the exact sums `1/50 + n/2048`. -/
theorem incremented_near (n : ℕ) (hn : n < 472) :
    incremented n < 1 / 4 ∧ 1 / 50 + (n : ℚ) / 2048 - 1 / 2 ^ 27 < incremented n ∧
      incremented n < 1 / 50 + (n : ℚ) / 2048 := by
  have hnq : (n : ℚ) ≤ 471 := by
    have : n ≤ 471 := by omega
    exact_mod_cast this
  unfold incremented
  split_ifs with h1 h2
  · push_cast
    refine ⟨?_, ?_, ?_⟩ <;> norm_num <;> linarith
  · have hc : ((n - 88 : ℕ) : ℚ) = (n : ℚ) - 88 := by
      rw [Nat.cast_sub (by omega)]; norm_num
    push_cast
    rw [hc]
    refine ⟨?_, ?_, ?_⟩ <;> norm_num <;> linarith
  · have hc : ((n - 216 : ℕ) : ℚ) = (n : ℚ) - 216 := by
      rw [Nat.cast_sub (by omega)]; norm_num
    push_cast
    rw [hc]
    refine ⟨?_, ?_, ?_⟩ <;> norm_num <;> linarith

/-- C6, the claim as stated fails: already before the first increment the stored step size
is `float(1.0/50.0) = 5368709/268435456`, not `1/50`, and after 471 increments it is
`16775905/67108864`, not `1/50 + 471/2048 = 12799/51200`. -/
theorem stepsize_increment_not_exact :
    runFrames (List.replicate 0 onlyW) stepsizeDefault = 5368709 / 268435456 ∧
    (5368709 / 268435456 : ℚ) ≠ 1 / 50 + (0 : ℕ) / 2048 ∧
    runFrames (List.replicate 471 onlyW) stepsizeDefault = 16775905 / 67108864 ∧
    (16775905 / 67108864 : ℚ) ≠ 1 / 50 + (471 : ℕ) / 2048 := by
  refine ⟨?_, by norm_num, ?_, by norm_num⟩
  · rw [runFrames_onlyW_below 0 (by norm_num)]
    norm_num [incremented]
  · rw [runFrames_onlyW_below 471 (by norm_num), incremented_471]

/-- C6, amended: with only `'w'` held, 10000 consecutive `ProcessKeys` frames from the
default step size leave it exactly `1/4`, and so do `n` frames for every `n ≥ 472`. For
`n < 472` the value is the binary32 number `incremented n`, the result of `n` additions of
`1/2048` to `float(1.0/50.0)` each rounded to binary32: it is below `1/4` and lies below
`1/50 + n/2048` by less than `2^-27`, without being equal to it. -/
theorem stepsize_increment_saturates_float :
    runFrames (List.replicate 10000 onlyW) stepsizeDefault = 1 / 4 ∧
    (∀ n, 472 ≤ n → runFrames (List.replicate n onlyW) stepsizeDefault = 1 / 4) ∧
    (∀ n, n < 472 →
      runFrames (List.replicate n onlyW) stepsizeDefault = incremented n ∧
      runFrames (List.replicate n onlyW) stepsizeDefault < 1 / 4 ∧
      1 / 50 + (n : ℚ) / 2048 - 1 / 2 ^ 27 < runFrames (List.replicate n onlyW) stepsizeDefault ∧
      runFrames (List.replicate n onlyW) stepsizeDefault < 1 / 50 + (n : ℚ) / 2048) := by
  refine ⟨runFrames_onlyW_above 10000 (by norm_num), runFrames_onlyW_above, ?_⟩
  intro n hn
  rw [runFrames_onlyW_below n hn]
  exact ⟨rfl, incremented_near n hn⟩

end KeysClaims

/-! ## The ray-march loop in rounded arithmetic: general facts -/

section RoundedFacts

variable {α : Type} [LinearOrderedField α]

theorem marchBodyFl_samples (fl : α → α) (vt : Vec3 α → Vec4 α) (st : α) (r : Ray α)
    (s : March α) : (marchBodyFl fl vt st r s).samples = s.samples + 1 := rfl

theorem marchBodyFl_alpha (fl : α → α) (vt : Vec3 α → Vec4 α) (st : α) (r : Ray α)
    (s : March α) :
    (marchBodyFl fl vt st r s).alpha_acc = fl (s.alpha_acc + fl ((vt s.vect).w * st)) := rfl

theorem marchBodyFl_length (fl : α → α) (vt : Vec3 α → Vec4 α) (st : α) (r : Ray α)
    (s : March α) :
    (marchBodyFl fl vt st r s).length_acc = fl (s.length_acc + r.delta_dir_len) := rfl

theorem iterateFl_samples (fl : α → α) (vt : Vec3 α → Vec4 α) (st : α) (r : Ray α)
    (s : March α) (k : Nat) : ((marchBodyFl fl vt st r)^[k] s).samples = s.samples + k := by
  induction k with
  | zero => simp
  | succ k ih => rw [Function.iterate_succ_apply', marchBodyFl_samples, ih]; omega

theorem iterateFl_length (fl : α → α) (vt : Vec3 α → Vec4 α) (st : α) (r : Ray α)
    (s : March α) (k : Nat) :
    ((marchBodyFl fl vt st r)^[k] s).length_acc =
      (fun l => fl (l + r.delta_dir_len))^[k] s.length_acc := by
  induction k with
  | zero => simp
  | succ k ih =>
    rw [Function.iterate_succ_apply', Function.iterate_succ_apply', marchBodyFl_length, ih]

/-- The loop in rounded arithmetic with `n > 0` iterations left runs the body `m` times,
`1 ≤ m ≤ n`: the test of the `break` fails after each of the first `m - 1` executions and,
when `m < n`, holds after the last one. -/
theorem rayMarchFl_spec (fl : α → α) (vt : Vec3 α → Vec4 α) (st : α) (r : Ray α) :
    ∀ (n : Nat) (s : March α), 0 < n →
      ∃ m, 1 ≤ m ∧ m ≤ n ∧ rayMarchFl fl vt st r n s = (marchBodyFl fl vt st r)^[m] s ∧
        (∀ k, 1 ≤ k → k < m → ¬ marchStop r ((marchBodyFl fl vt st r)^[k] s)) ∧
        (m < n → marchStop r ((marchBodyFl fl vt st r)^[m] s)) := by
  intro n
  induction n with
  | zero => intro s h; omega
  | succ n ih =>
    intro s _
    by_cases hstop : marchStop r (marchBodyFl fl vt st r s)
    · refine ⟨1, le_refl 1, by omega, ?_, ?_, ?_⟩
      · simp [rayMarchFl, hstop]
      · intro k h1 h2; omega
      · intro _; simpa using hstop
    · rcases Nat.eq_zero_or_pos n with hn | hn
      · subst hn
        refine ⟨1, le_refl 1, le_refl 1, ?_, ?_, ?_⟩
        · simp [rayMarchFl]
        · intro k h1 h2; omega
        · intro h; omega
      · obtain ⟨m, hm1, hmn, heq, hbefore, hlast⟩ := ih (marchBodyFl fl vt st r s) hn
        refine ⟨m + 1, by omega, by omega, ?_, ?_, ?_⟩
        · rw [Function.iterate_succ_apply]
          simp only [rayMarchFl, hstop, if_false]
          exact heq
        · intro k h1 h2
          rcases Nat.eq_or_lt_of_le h1 with h | h
          · subst h; simpa using hstop
          · obtain ⟨j, rfl⟩ : ∃ j, k = j + 1 := ⟨k - 1, by omega⟩
            rw [Function.iterate_succ_apply]
            exact hbefore j (by omega) (by omega)
        · intro h
          rw [Function.iterate_succ_apply]
          exact hlast (by omega)

/-- The run of the loop of `frag` in rounded arithmetic, in terms of the number of samples
it takes. -/
theorem fragMarchFl_spec (fl : α → α) (B : Builtins α) (inp : FragInput α) :
    1 ≤ (fragMarchFl fl B inp).samples ∧ (fragMarchFl fl B inp).samples ≤ 450 ∧
      fragMarchFl fl B inp = marchAfterFl fl B inp (fragMarchFl fl B inp).samples ∧
      (∀ k, 1 ≤ k → k < (fragMarchFl fl B inp).samples → ¬ breakAfter fl B inp k) ∧
      ((fragMarchFl fl B inp).samples < 450 →
        breakAfter fl B inp (fragMarchFl fl B inp).samples) := by
  obtain ⟨m, hm1, hmn, heq, hbefore, hlast⟩ :=
    rayMarchFl_spec fl inp.volume_tex inp.stepsize (fragSetupFl fl B inp) 450
      (marchInit (fragSetupFl fl B inp)) (by norm_num)
  have hs : (fragMarchFl fl B inp).samples = m := by
    unfold fragMarchFl
    rw [heq, iterateFl_samples]
    simp [marchInit]
  rw [hs]
  refine ⟨hm1, hmn, ?_, hbefore, hlast⟩
  unfold fragMarchFl marchAfterFl
  exact heq

/-- The loop of `frag` in rounded arithmetic is left after `m` samples when the test of the
`break` first holds after the `m`-th one. -/
theorem fragMarchFl_eq_of_stop (fl : α → α) (B : Builtins α) (inp : FragInput α) (m : Nat)
    (hm1 : 1 ≤ m) (hm : m ≤ 450)
    (hbefore : ∀ k, 1 ≤ k → k < m → ¬ breakAfter fl B inp k)
    (hstop : breakAfter fl B inp m) :
    (fragMarchFl fl B inp).samples = m ∧ fragMarchFl fl B inp = marchAfterFl fl B inp m := by
  obtain ⟨h1, _, heq, hb, hl⟩ := fragMarchFl_spec fl B inp
  have hn : (fragMarchFl fl B inp).samples = m := by
    rcases Nat.lt_trichotomy (fragMarchFl fl B inp).samples m with h | h | h
    · exact absurd (hl (by omega)) (hbefore _ h1 h)
    · exact h
    · exact absurd hstop (hb m hm1 h)
  exact ⟨hn, by rw [heq, hn]⟩

theorem marchAfterFl_succ (fl : α → α) (B : Builtins α) (inp : FragInput α) (k : Nat) :
    marchAfterFl fl B inp (k + 1) =
      marchBodyFl fl inp.volume_tex inp.stepsize (fragSetupFl fl B inp)
        (marchAfterFl fl B inp k) := by
  unfold marchAfterFl
  rw [Function.iterate_succ_apply']

/-- The variable `length_acc` after `k` samples is the running rounded sum of `k` step
lengths. -/
theorem marchAfterFl_length (fl : α → α) (B : Builtins α) (inp : FragInput α) (k : Nat) :
    (marchAfterFl fl B inp k).length_acc =
      runningLength fl (fragSetupFl fl B inp).delta_dir_len k := by
  unfold marchAfterFl runningLength
  rw [iterateFl_length]
  rfl

/-- In a volume of alpha `0` the accumulated alpha stays `0`, when the rounding keeps `0`. -/
theorem marchAfterFl_alpha_of_alpha_zero (fl : α → α) (B : Builtins α) (inp : FragInput α)
    (hfl : fl 0 = 0) (h : ∀ p, (inp.volume_tex p).w = 0) (k : Nat) :
    (marchAfterFl fl B inp k).alpha_acc = 0 := by
  induction k with
  | zero => rfl
  | succ k ih => rw [marchAfterFl_succ, marchBodyFl_alpha, ih, h, zero_mul, hfl, add_zero, hfl]

theorem breakAfter_iff_running (fl : α → α) (B : Builtins α) (inp : FragInput α) (k : Nat) :
    breakAfter fl B inp k ↔
      runningLength fl (fragSetupFl fl B inp).delta_dir_len k > (fragSetupFl fl B inp).len ∨
        (marchAfterFl fl B inp k).alpha_acc > 1 := by
  unfold breakAfter marchStop
  rw [marchAfterFl_length]

/-- Without rounding the running sum of `k` steps of length `d` is `k * d`. -/
theorem runningLength_id (d : α) (k : Nat) : runningLength id d k = k * d := by
  unfold runningLength
  induction k with
  | zero => simp
  | succ k ih =>
    rw [Function.iterate_succ_apply', ih]
    simp only [id]
    push_cast
    ring

theorem fragSetupFl_id (B : Builtins α) (inp : FragInput α) :
    fragSetupFl id B inp = fragSetup B inp := rfl

theorem marchBodyFl_id (vt : Vec3 α → Vec4 α) (st : α) (r : Ray α) (s : March α) :
    marchBodyFl id vt st r s = marchBody vt st r s := rfl

theorem rayMarchFl_id (vt : Vec3 α → Vec4 α) (st : α) (r : Ray α) :
    ∀ (n : Nat) (s : March α), rayMarchFl id vt st r n s = rayMarch vt st r n s := by
  intro n
  induction n with
  | zero => intro s; rfl
  | succ n ih =>
    intro s
    simp only [rayMarchFl, rayMarch, marchBodyFl_id, ih]

/-- Without rounding the loop is the loop of the exact embedding. -/
theorem fragMarchFl_id (B : Builtins α) (inp : FragInput α) :
    fragMarchFl id B inp = fragMarch B inp := by
  unfold fragMarchFl fragMarch
  rw [rayMarchFl_id, fragSetupFl_id]

theorem breakAfter_id_iff (B : Builtins α) (inp : FragInput α) (k : Nat) :
    breakAfter id B inp k ↔ exitAfter id B inp k := by
  rw [breakAfter_iff_running, runningLength_id]
  rfl

end RoundedFacts

/-! ## The claim on the number of samples -/

section SamplesClaims

variable {α : Type} [LinearOrderedField α]

theorem fl32_zero : fl32 0 = 0 := roundTo_zero 24

theorem fl32_half : fl32 (1 / 2) = 1 / 2 := fl32_of_eq _ 1 1 (by norm_num) (by norm_num)

theorem fl32_one : fl32 1 = 1 := fl32_of_eq _ 1 0 (by norm_num) (by norm_num)

/-- Evaluation of `fl32` on a positive number: the binade `e` and the rounded significand
`n` are given, and checked. -/
theorem fl32_eval (q : ℚ) (e n : ℤ) (r : ℚ) (h1 : (2 : ℚ) ^ e ≤ q) (h2 : q < 2 ^ (e + 1))
    (h3 : ((n : ℚ) - 1 / 2 < q / 2 ^ (e - 23) ∧ q / 2 ^ (e - 23) < n + 1 / 2) ∨
      (q / 2 ^ (e - 23) = n + 1 / 2 ∧ n % 2 = 0) ∨ (q / 2 ^ (e - 23) = n - 1 / 2 ∧ n % 2 = 0))
    (hr : (n : ℚ) * 2 ^ (e - 23) = r) : fl32 q = r := by
  have hp : e - (((24 : ℕ) : ℤ) - 1) = e - 23 := by norm_num
  unfold fl32
  rw [roundTo_binade 24 q e h1 h2, hp, roundHalfEven_eq _ n h3, hr]

/-- Evaluation of `sqrt32`: the integer square root is given, and checked. -/
theorem sqrt32_eval (q : ℚ) (N n : ℕ) (hN : q * 2 ^ 128 = N) (h1 : n * n ≤ N)
    (h2 : N < (n + 1) * (n + 1)) : sqrt32 q = fl32 ((n : ℚ) / 2 ^ 64) := by
  have hs : Nat.sqrt N = n := (Nat.eq_sqrt.mpr ⟨h1, h2⟩).symm
  unfold sqrt32
  rw [hN, Nat.floor_natCast, hs]

theorem sqrt32_quarter : sqrt32 (1 / 4) = 1 / 2 := by
  rw [sqrt32_eval (1 / 4) 85070591730234615865843651857942052864 9223372036854775808
    (by norm_num) (by norm_num) (by norm_num)]
  have h : ((9223372036854775808 : ℕ) : ℚ) / 2 ^ 64 = 1 / 2 := by norm_num
  rw [h]
  exact fl32_half

theorem fl32_step : fl32 (5368709 / 268435456) = 5368709 / 268435456 :=
  fl32_of_eq _ 5368709 28 (by norm_num) (by norm_num)

theorem fl32_step_sq :
    fl32 (5368709 / 268435456 * (5368709 / 268435456)) = 13743895 / 34359738368 :=
  fl32_eval _ (-12) 13743895 _ (by norm_num) (by norm_num) (by norm_num) (by norm_num)

theorem fl32_sq : fl32 (13743895 / 34359738368) = 13743895 / 34359738368 :=
  fl32_of_eq _ 13743895 35 (by norm_num) (by norm_num)

theorem sqrt32_step_sq : sqrt32 (13743895 / 34359738368) = 5368709 / 268435456 := by
  rw [sqrt32_eval (13743895 / 34359738368) 136112943329873132266277591412899840
    368934876814151486 (by norm_num) (by norm_num) (by norm_num)]
  exact fl32_eval _ (-6) 10737418 _ (by norm_num) (by norm_num) (by norm_num) (by norm_num)

/-- The values `frag` computes before the loop for `halfRay`, in binary32: the length of
the ray is `1/2` and the step vector has the length of the step size. -/
theorem halfRay_setup :
    fragSetupFl fl32 float32Builtins halfRay =
      ⟨⟨0, 0, 0⟩, 1 / 2, ⟨5368709 / 268435456, 0, 0⟩, 5368709 / 268435456⟩ := by
  have hne : ¬ ((1 / 2 : ℚ) = 0) := by norm_num
  have hq : (1 / 2 : ℚ) * (1 / 2) = 1 / 4 := by norm_num
  have hd : (1 / 2 : ℚ) / (1 / 2) = 1 := by norm_num
  simp only [fragSetupFl, normalizeFl, lengthFl, halfRay, uniformTex, float32Builtins,
    Vec4.xyz, stepsizeDefault_eq, sub_zero, mul_zero, zero_mul, add_zero, zero_div, one_mul,
    fl32_zero, fl32_half, hq, fl32_quarter, sqrt32_quarter, hne, if_false, hd, fl32_one,
    fl32_step, fl32_step_sq, fl32_sq, sqrt32_step_sq]

/-- The running sum `length_acc` of the default step length in binary32: it stays at most
`1/2` for 24 additions and is `8388609/2^24`, above `1/2`, after the 25th. -/
theorem halfRay_running :
    (∀ k, k < 25 → runningLength fl32 (5368709 / 268435456) k ≤ 1 / 2) ∧
      runningLength fl32 (5368709 / 268435456) 25 = 8388609 / 16777216 := by
  have step : ∀ (k : ℕ) (x : ℚ), runningLength fl32 (5368709 / 268435456) k = x →
      runningLength fl32 (5368709 / 268435456) (k + 1) = fl32 (x + 5368709 / 268435456) := by
    intro k x h
    unfold runningLength at h ⊢
    rw [Function.iterate_succ_apply', h]
  have r0 : runningLength fl32 (5368709 / 268435456) 0 = 0 := rfl
  have r1 : runningLength fl32 (5368709 / 268435456) 1 = 5368709 / 268435456 :=
    (step 0 _ r0).trans (fl32_eval _ (-6) 10737418 _ (by norm_num) (by norm_num)
      (by norm_num) (by norm_num))
  have r2 : runningLength fl32 (5368709 / 268435456) 2 = 5368709 / 134217728 :=
    (step 1 _ r1).trans (fl32_eval _ (-5) 10737418 _ (by norm_num) (by norm_num)
      (by norm_num) (by norm_num))
  have r3 : runningLength fl32 (5368709 / 268435456) 3 = 16106127 / 268435456 :=
    (step 2 _ r2).trans (fl32_eval _ (-5) 16106127 _ (by norm_num) (by norm_num)
      (by norm_num) (by norm_num))
  have r4 : runningLength fl32 (5368709 / 268435456) 4 = 5368709 / 67108864 :=
    (step 3 _ r3).trans (fl32_eval _ (-4) 10737418 _ (by norm_num) (by norm_num)
      (by norm_num) (by norm_num))
  have r5 : runningLength fl32 (5368709 / 268435456) 5 = 3355443 / 33554432 :=
    (step 4 _ r4).trans (fl32_eval _ (-4) 13421772 _ (by norm_num) (by norm_num)
      (by norm_num) (by norm_num))
  have r6 : runningLength fl32 (5368709 / 268435456) 6 = 8053063 / 67108864 :=
    (step 5 _ r5).trans (fl32_eval _ (-4) 16106126 _ (by norm_num) (by norm_num)
      (by norm_num) (by norm_num))
  have r7 : runningLength fl32 (5368709 / 268435456) 7 = 1174405 / 8388608 :=
    (step 6 _ r6).trans (fl32_eval _ (-3) 9395240 _ (by norm_num) (by norm_num)
      (by norm_num) (by norm_num))
  have r8 : runningLength fl32 (5368709 / 268435456) 8 = 10737417 / 67108864 :=
    (step 7 _ r7).trans (fl32_eval _ (-3) 10737417 _ (by norm_num) (by norm_num)
      (by norm_num) (by norm_num))
  have r9 : runningLength fl32 (5368709 / 268435456) 9 = 6039797 / 33554432 :=
    (step 8 _ r8).trans (fl32_eval _ (-3) 12079594 _ (by norm_num) (by norm_num)
      (by norm_num) (by norm_num))
  have r10 : runningLength fl32 (5368709 / 268435456) 10 = 13421771 / 67108864 :=
    (step 9 _ r9).trans (fl32_eval _ (-3) 13421771 _ (by norm_num) (by norm_num)
      (by norm_num) (by norm_num))
  have r11 : runningLength fl32 (5368709 / 268435456) 11 = 3690987 / 16777216 :=
    (step 10 _ r10).trans (fl32_eval _ (-3) 14763948 _ (by norm_num) (by norm_num)
      (by norm_num) (by norm_num))
  have r12 : runningLength fl32 (5368709 / 268435456) 12 = 16106125 / 67108864 :=
    (step 11 _ r11).trans (fl32_eval _ (-3) 16106125 _ (by norm_num) (by norm_num)
      (by norm_num) (by norm_num))
  have r13 : runningLength fl32 (5368709 / 268435456) 13 = 8724151 / 33554432 :=
    (step 12 _ r12).trans (fl32_eval _ (-2) 8724151 _ (by norm_num) (by norm_num)
      (by norm_num) (by norm_num))
  have r14 : runningLength fl32 (5368709 / 268435456) 14 = 1174405 / 4194304 :=
    (step 13 _ r13).trans (fl32_eval _ (-2) 9395240 _ (by norm_num) (by norm_num)
      (by norm_num) (by norm_num))
  have r15 : runningLength fl32 (5368709 / 268435456) 15 = 10066329 / 33554432 :=
    (step 14 _ r14).trans (fl32_eval _ (-2) 10066329 _ (by norm_num) (by norm_num)
      (by norm_num) (by norm_num))
  have r16 : runningLength fl32 (5368709 / 268435456) 16 = 5368709 / 16777216 :=
    (step 15 _ r15).trans (fl32_eval _ (-2) 10737418 _ (by norm_num) (by norm_num)
      (by norm_num) (by norm_num))
  have r17 : runningLength fl32 (5368709 / 268435456) 17 = 11408507 / 33554432 :=
    (step 16 _ r16).trans (fl32_eval _ (-2) 11408507 _ (by norm_num) (by norm_num)
      (by norm_num) (by norm_num))
  have r18 : runningLength fl32 (5368709 / 268435456) 18 = 3019899 / 8388608 :=
    (step 17 _ r17).trans (fl32_eval _ (-2) 12079596 _ (by norm_num) (by norm_num)
      (by norm_num) (by norm_num))
  have r19 : runningLength fl32 (5368709 / 268435456) 19 = 12750685 / 33554432 :=
    (step 18 _ r18).trans (fl32_eval _ (-2) 12750685 _ (by norm_num) (by norm_num)
      (by norm_num) (by norm_num))
  have r20 : runningLength fl32 (5368709 / 268435456) 20 = 6710887 / 16777216 :=
    (step 19 _ r19).trans (fl32_eval _ (-2) 13421774 _ (by norm_num) (by norm_num)
      (by norm_num) (by norm_num))
  have r21 : runningLength fl32 (5368709 / 268435456) 21 = 14092863 / 33554432 :=
    (step 20 _ r20).trans (fl32_eval _ (-2) 14092863 _ (by norm_num) (by norm_num)
      (by norm_num) (by norm_num))
  have r22 : runningLength fl32 (5368709 / 268435456) 22 = 922747 / 2097152 :=
    (step 21 _ r21).trans (fl32_eval _ (-2) 14763952 _ (by norm_num) (by norm_num)
      (by norm_num) (by norm_num))
  have r23 : runningLength fl32 (5368709 / 268435456) 23 = 15435041 / 33554432 :=
    (step 22 _ r22).trans (fl32_eval _ (-2) 15435041 _ (by norm_num) (by norm_num)
      (by norm_num) (by norm_num))
  have r24 : runningLength fl32 (5368709 / 268435456) 24 = 8053065 / 16777216 :=
    (step 23 _ r23).trans (fl32_eval _ (-2) 16106130 _ (by norm_num) (by norm_num)
      (by norm_num) (by norm_num))
  have r25 : runningLength fl32 (5368709 / 268435456) 25 = 8388609 / 16777216 :=
    (step 24 _ r24).trans (fl32_eval _ (-1) 8388609 _ (by norm_num) (by norm_num)
      (by norm_num) (by norm_num))
  refine ⟨?_, r25⟩
  intro k hk
  interval_cases k
  · rw [r0]; norm_num
  · rw [r1]; norm_num
  · rw [r2]; norm_num
  · rw [r3]; norm_num
  · rw [r4]; norm_num
  · rw [r5]; norm_num
  · rw [r6]; norm_num
  · rw [r7]; norm_num
  · rw [r8]; norm_num
  · rw [r9]; norm_num
  · rw [r10]; norm_num
  · rw [r11]; norm_num
  · rw [r12]; norm_num
  · rw [r13]; norm_num
  · rw [r14]; norm_num
  · rw [r15]; norm_num
  · rw [r16]; norm_num
  · rw [r17]; norm_num
  · rw [r18]; norm_num
  · rw [r19]; norm_num
  · rw [r20]; norm_num
  · rw [r21]; norm_num
  · rw [r22]; norm_num
  · rw [r23]; norm_num
  · rw [r24]; norm_num

theorem halfRay_alpha (k : Nat) : (marchAfterFl fl32 float32Builtins halfRay k).alpha_acc = 0 :=
  marchAfterFl_alpha_of_alpha_zero fl32 float32Builtins halfRay fl32_zero (fun _ => rfl) k

theorem halfRay_break (k : Nat) :
    breakAfter fl32 float32Builtins halfRay k ↔
      runningLength fl32 (5368709 / 268435456) k > 1 / 2 := by
  rw [breakAfter_iff_running, halfRay_alpha, halfRay_setup]
  constructor
  · rintro (h | h)
    · exact h
    · norm_num at h
  · intro h
    exact Or.inl h

theorem halfRay_exit (k : Nat) :
    exitAfter fl32 float32Builtins halfRay k ↔ (k : ℚ) * (5368709 / 268435456) > 1 / 2 := by
  unfold exitAfter
  rw [halfRay_alpha, halfRay_setup]
  constructor
  · rintro (h | h)
    · exact h
    · norm_num at h
  · intro h
    exact Or.inl h

/-- C2, the claim as stated fails in the arithmetic of the program. The ray `halfRay` goes
from `(0,0,0)` to `(1/2,0,0)`, the volume is transparent and the step size is the default of the program,
the binary32 number `5368709/2^28`. In binary32 the loop takes 25 samples: the running sum
`length_acc` is `8388609/2^24` after the 25th addition, above `1/2`. But 25 times the step
length is below `1/2` and the accumulated alpha is `0`: neither condition of the claim holds
after 25 samples, nor after fewer, and the least `k` for which one holds is 26. -/
theorem frag_stops_before_exit :
    halfRay.texCoord0.xyz = ⟨0, 0, 0⟩ ∧
    (halfRay.tex (fragTexcFl fl32 halfRay)).xyz = ⟨1 / 2, 0, 0⟩ ∧
    halfRay.stepsize = 5368709 / 268435456 ∧
    (fragSetupFl fl32 float32Builtins halfRay).len = 1 / 2 ∧
    (fragSetupFl fl32 float32Builtins halfRay).delta_dir_len = 5368709 / 268435456 ∧
    (fragMarchFl fl32 float32Builtins halfRay).samples = 25 ∧
    (fragMarchFl fl32 float32Builtins halfRay).length_acc = 8388609 / 16777216 ∧
    (fragMarchFl fl32 float32Builtins halfRay).alpha_acc = 0 ∧
    ¬ exitAfter fl32 float32Builtins halfRay 25 ∧
    (∀ k, 1 ≤ k → k < 26 → ¬ exitAfter fl32 float32Builtins halfRay k) ∧
    exitAfter fl32 float32Builtins halfRay 26 := by
  obtain ⟨hle, h25⟩ := halfRay_running
  have hrun := fragMarchFl_eq_of_stop fl32 float32Builtins halfRay 25 (by norm_num)
    (by norm_num)
    (by
      intro k _ hk
      rw [halfRay_break]
      exact not_lt.mpr (hle k hk))
    (by
      rw [halfRay_break, h25]
      norm_num)
  have hbelow : ∀ k, 1 ≤ k → k < 26 → ¬ exitAfter fl32 float32Builtins halfRay k := by
    intro k _ hk
    rw [halfRay_exit]
    have : (k : ℚ) ≤ 25 := by exact_mod_cast (by omega : k ≤ 25)
    linarith
  refine ⟨rfl, rfl, stepsizeDefault_eq, ?_, ?_, hrun.1, ?_, ?_,
    hbelow 25 (by norm_num) (by norm_num), hbelow, ?_⟩
  · rw [halfRay_setup]
  · rw [halfRay_setup]
  · rw [hrun.2, marchAfterFl_length, halfRay_setup]
    exact h25
  · rw [hrun.2]
    exact halfRay_alpha 25
  · rw [halfRay_exit]
    norm_num

/-- C2 amended: for every rounding of the arithmetic, every ray, volume and step size, the
number `n` of samples the loop takes lies in `1..450` and the loop is left in the state the
`n` samples produce; the test of the `break` fails after `k` samples for `1 ≤ k < n` and
holds after `n` samples unless `n = 450`, so `n` is the least `k` in `1..450` after which
the test holds, and `450` when there is none. The test holds after `k` samples when the
running sum `length_acc` of `k` step lengths, rounded at each addition, exceeds `len`, or
the accumulated alpha exceeds `1.0`; `len` is the computed length of the vector from the
entry point to the exit point and the step length the computed length of the step vector.
Only without rounding is the running sum `k` times the step length: then the loop is the
loop of the exact embedding and the test is the one the claim words, and with an exact
square root `len` is the Euclidean distance from the entry point to the exit point. -/
theorem frag_samples_least_running_sum (fl : α → α) (B : Builtins α) (inp : FragInput α) :
    ((1 ≤ (fragMarchFl fl B inp).samples ∧ (fragMarchFl fl B inp).samples ≤ 450) ∧
      fragMarchFl fl B inp = marchAfterFl fl B inp (fragMarchFl fl B inp).samples) ∧
    ((∀ k, 1 ≤ k → k < (fragMarchFl fl B inp).samples → ¬ breakAfter fl B inp k) ∧
      ((fragMarchFl fl B inp).samples < 450 →
        breakAfter fl B inp (fragMarchFl fl B inp).samples) ∧
      (∀ k, 1 ≤ k → k ≤ 450 → breakAfter fl B inp k →
        (∀ j, 1 ≤ j → j < k → ¬ breakAfter fl B inp j) → (fragMarchFl fl B inp).samples = k) ∧
      ((∀ k, 1 ≤ k → k ≤ 450 → ¬ breakAfter fl B inp k) →
        (fragMarchFl fl B inp).samples = 450)) ∧
    ((∀ k, breakAfter fl B inp k ↔
        (marchAfterFl fl B inp k).length_acc > (fragSetupFl fl B inp).len ∨
          (marchAfterFl fl B inp k).alpha_acc > 1) ∧
      (∀ k, (marchAfterFl fl B inp k).length_acc =
        runningLength fl (fragSetupFl fl B inp).delta_dir_len k) ∧
      runningLength fl (fragSetupFl fl B inp).delta_dir_len 0 = 0 ∧
      (∀ k, runningLength fl (fragSetupFl fl B inp).delta_dir_len (k + 1) =
        fl (runningLength fl (fragSetupFl fl B inp).delta_dir_len k +
          (fragSetupFl fl B inp).delta_dir_len))) ∧
    ((fragSetupFl fl B inp).len =
        lengthFl fl B
          ⟨fl ((inp.tex (fragTexcFl fl inp)).x - inp.texCoord0.x),
            fl ((inp.tex (fragTexcFl fl inp)).y - inp.texCoord0.y),
            fl ((inp.tex (fragTexcFl fl inp)).z - inp.texCoord0.z)⟩ ∧
      (fragSetupFl fl B inp).delta_dir_len = lengthFl fl B (fragSetupFl fl B inp).delta_dir ∧
      (fragSetupFl fl B inp).delta_dir =
        ⟨fl ((normalizeFl fl B
              ⟨fl ((inp.tex (fragTexcFl fl inp)).x - inp.texCoord0.x),
                fl ((inp.tex (fragTexcFl fl inp)).y - inp.texCoord0.y),
                fl ((inp.tex (fragTexcFl fl inp)).z - inp.texCoord0.z)⟩).x * inp.stepsize),
          fl ((normalizeFl fl B
              ⟨fl ((inp.tex (fragTexcFl fl inp)).x - inp.texCoord0.x),
                fl ((inp.tex (fragTexcFl fl inp)).y - inp.texCoord0.y),
                fl ((inp.tex (fragTexcFl fl inp)).z - inp.texCoord0.z)⟩).y * inp.stepsize),
          fl ((normalizeFl fl B
              ⟨fl ((inp.tex (fragTexcFl fl inp)).x - inp.texCoord0.x),
                fl ((inp.tex (fragTexcFl fl inp)).y - inp.texCoord0.y),
                fl ((inp.tex (fragTexcFl fl inp)).z - inp.texCoord0.z)⟩).z * inp.stepsize)⟩) ∧
    (fragMarchFl id B inp = fragMarch B inp ∧
      (∀ k, (marchAfterFl id B inp k).length_acc = k * (fragSetupFl id B inp).delta_dir_len) ∧
      (∀ k, breakAfter id B inp k ↔ exitAfter id B inp k) ∧
      (∀ k, 1 ≤ k → k < (fragMarch B inp).samples → ¬ exitAfter id B inp k) ∧
      ((fragMarch B inp).samples < 450 → exitAfter id B inp (fragMarch B inp).samples) ∧
      (ExactSqrt B →
        0 ≤ (fragSetupFl id B inp).len ∧
        (fragSetupFl id B inp).len * (fragSetupFl id B inp).len =
          ((inp.tex (fragTexc inp)).x - inp.texCoord0.x) *
              ((inp.tex (fragTexc inp)).x - inp.texCoord0.x) +
            ((inp.tex (fragTexc inp)).y - inp.texCoord0.y) *
              ((inp.tex (fragTexc inp)).y - inp.texCoord0.y) +
            ((inp.tex (fragTexc inp)).z - inp.texCoord0.z) *
              ((inp.tex (fragTexc inp)).z - inp.texCoord0.z))) := by
  obtain ⟨h1, h450, heq, hb, hl⟩ := fragMarchFl_spec fl B inp
  refine ⟨⟨⟨h1, h450⟩, heq⟩, ⟨hb, hl, ?_, ?_⟩, ⟨fun k => Iff.rfl, marchAfterFl_length fl B inp,
    rfl, ?_⟩, ⟨rfl, rfl, rfl⟩, fragMarchFl_id B inp, ?_, breakAfter_id_iff B inp, ?_, ?_, ?_⟩
  · intro k hk1 _ hk hleast
    rcases Nat.lt_trichotomy (fragMarchFl fl B inp).samples k with h | h | h
    · exact absurd (hl (by omega)) (hleast _ h1 h)
    · exact h
    · exact absurd hk (hb k hk1 h)
  · intro hnone
    by_contra hne
    exact hnone _ h1 h450 (hl (by omega))
  · intro k
    unfold runningLength
    rw [Function.iterate_succ_apply']
  · intro k
    rw [marchAfterFl_length, runningLength_id]
  · intro k hk1 hk
    rw [← breakAfter_id_iff]
    rw [← fragMarchFl_id] at hk
    exact (fragMarchFl_spec id B inp).2.2.2.1 k hk1 hk
  · intro h
    rw [← breakAfter_id_iff, ← fragMarchFl_id]
    rw [← fragMarchFl_id] at h
    exact (fragMarchFl_spec id B inp).2.2.2.2 h
  · intro hsqrt
    exact hsqrt _ (add_nonneg (add_nonneg (mul_self_nonneg _) (mul_self_nonneg _))
      (mul_self_nonneg _))

end SamplesClaims

/-! ## The procedural volume: general facts -/

section VolumeFacts

theorem foldlM_flatMap {ι β : Type} (g : Buffer → β → Option Buffer) (f : ι → List β)
    (l : List ι) (d : Buffer) :
    (l.flatMap f).foldlM g d = l.foldlM (fun d i => (f i).foldlM g d) d := by
  induction l generalizing d with
  | nil => rfl
  | cons i l ih =>
    rw [List.flatMap_cons, List.foldlM_append, List.foldlM_cons]
    cases (f i).foldlM g d with
    | none => rfl
    | some d1 => exact ih d1

/-- The nested loops of `create_volumetexture` perform the assignments of `allWrites`. -/
theorem create_volumetexture_eq :
    create_volumetexture = allWrites.foldlM (store bufferSize) emptyBuffer := by
  unfold create_volumetexture allWrites
  simp only [foldlM_flatMap]

theorem lastWrite_cons (w : Nat × Int) (ws : List (Nat × Int)) (j : Nat) :
    lastWrite (w :: ws) j =
      match lastWrite ws j with
      | some v => some v
      | none => if w.1 = j then some w.2 else none := rfl

theorem lastWrite_append (l1 l2 : List (Nat × Int)) (j : Nat) :
    lastWrite (l1 ++ l2) j =
      match lastWrite l2 j with
      | some v => some v
      | none => lastWrite l1 j := by
  induction l1 with
  | nil => rw [List.nil_append]; cases lastWrite l2 j <;> rfl
  | cons w l1 ih =>
    rw [List.cons_append, lastWrite_cons, ih, lastWrite_cons]
    cases lastWrite l2 j <;> rfl

theorem lastWrite_eq_none_iff (ws : List (Nat × Int)) (j : Nat) :
    lastWrite ws j = none ↔ ∀ w ∈ ws, w.1 ≠ j := by
  induction ws with
  | nil => simp [lastWrite]
  | cons w ws ih =>
    rw [lastWrite_cons]
    simp only [List.mem_cons, forall_eq_or_imp]
    cases h : lastWrite ws j with
    | none =>
      rw [h] at ih
      by_cases hw : w.1 = j
      · simp [hw]
      · simp only [hw, if_false, true_iff, ne_eq, not_false_eq_true, true_and]
        exact ih.mp rfl
    | some v =>
      rw [h] at ih
      constructor
      · intro hc; cases hc
      · intro hall
        exact absurd (ih.mpr hall.2) (by simp)

theorem lastWrite_mem (ws : List (Nat × Int)) (j : Nat) (v : Int)
    (h : lastWrite ws j = some v) : (j, v) ∈ ws := by
  induction ws with
  | nil => simp [lastWrite] at h
  | cons w ws ih =>
    rw [lastWrite_cons] at h
    cases hl : lastWrite ws j with
    | some u =>
      rw [hl] at h ih
      exact List.mem_cons_of_mem _ (ih h)
    | none =>
      rw [hl] at h
      by_cases hw : w.1 = j
      · simp only [hw, if_true, Option.some.injEq] at h
        have : w = (j, v) := Prod.ext hw h
        rw [this]
        exact List.mem_cons_self _ _
      · simp [hw] at h

/-- A sequence of assignments inside the array succeeds and leaves at each offset the last
value assigned to it. -/
theorem foldlM_store (size : Nat) (ws : List (Nat × Int)) (h : ∀ w ∈ ws, w.1 < size)
    (data : Buffer) : ws.foldlM (store size) data = some (applyWrites ws data) := by
  induction ws generalizing data with
  | nil => rfl
  | cons w ws ih =>
    have hw : w.1 < size := h w (List.mem_cons_self _ _)
    rw [List.foldlM_cons]
    simp only [store, hw, if_true]
    show ws.foldlM (store size) _ = _
    rw [ih (fun u hu => h u (List.mem_cons_of_mem _ hu))]
    congr 1
    funext j
    simp only [applyWrites, lastWrite_cons]
    cases lastWrite ws j with
    | some v => rfl
    | none =>
      by_cases hj : j = w.1
      · simp [hj]
      · have : ¬ w.1 = j := fun e => hj e.symm
        simp [hj, this]

/-- In a concatenation of blocks of assignments in which one block alone touches an
offset, the last value assigned to the offset is the one that block assigns last. -/
theorem lastWrite_flatMap_unique {ι : Type} (f : ι → List (Nat × Int)) (j : Nat) (i0 : ι)
    (l : List ι) (hmem : i0 ∈ l) (hother : ∀ i ∈ l, i ≠ i0 → lastWrite (f i) j = none) :
    lastWrite (l.flatMap f) j = lastWrite (f i0) j := by
  classical
  induction l with
  | nil => simp at hmem
  | cons i l ih =>
    rw [List.flatMap_cons, lastWrite_append]
    by_cases hin : i0 ∈ l
    · rw [ih hin (fun k hk => hother k (List.mem_cons_of_mem _ hk))]
      by_cases hi : i = i0
      · subst hi; cases lastWrite (f i) j <;> rfl
      · rw [hother i (List.mem_cons_self _ _) hi]
        cases lastWrite (f i0) j <;> rfl
    · have hi : i = i0 := by
        rcases List.mem_cons.mp hmem with h | h
        · exact h.symm
        · exact absurd h hin
      subst hi
      have hnone : lastWrite (l.flatMap f) j = none := by
        rw [lastWrite_eq_none_iff]
        intro w hw
        obtain ⟨k, hk, hwk⟩ := List.mem_flatMap.mp hw
        have hki : k ≠ i := fun e => hin (e ▸ hk)
        exact (lastWrite_eq_none_iff _ _).mp (hother k (List.mem_cons_of_mem _ hk) hki) w hwk
      rw [hnone]

/-- Every assignment of the voxel `(x, y, z)` goes to one of its four channels. -/
theorem voxelWrites_offset (x y z : Nat) (w : Nat × Int) (hw : w ∈ voxelWrites x y z) :
    ∃ c, c < 4 ∧ w.1 = offsetR x y z + c := by
  simp only [voxelWrites, List.mem_append] at hw
  rcases hw with (((((hw | hw) | hw) | hw) | hw) | hw) | hw
  all_goals first
    | (split_ifs at hw
       all_goals simp only [List.mem_cons, List.mem_singleton, List.not_mem_nil, or_false] at hw
       all_goals first
         | exact absurd hw id
         | (rcases hw with h | h | h | h <;> subst h
            · exact ⟨0, by omega, rfl⟩
            · exact ⟨1, by omega, rfl⟩
            · exact ⟨2, by omega, rfl⟩
            · exact ⟨3, by omega, rfl⟩)
         | (subst hw; exact ⟨3, by omega, rfl⟩))
    | (simp only [List.mem_cons, List.mem_singleton, List.not_mem_nil, or_false] at hw
       rcases hw with h | h | h | h <;> subst h
       · exact ⟨0, by omega, rfl⟩
       · exact ⟨1, by omega, rfl⟩
       · exact ⟨2, by omega, rfl⟩
       · exact ⟨3, by omega, rfl⟩)

/-- The offset map is injective on the voxels of the cube and their four channels. -/
theorem offsetR_inj (x y z c x1 y1 z1 c1 : Nat) (hx : x < 128) (hy : y < 128)
    (hx1 : x1 < 128) (hy1 : y1 < 128) (hc : c < 4) (hc1 : c1 < 4)
    (h : offsetR x y z + c = offsetR x1 y1 z1 + c1) : x = x1 ∧ y = y1 ∧ z = z1 ∧ c = c1 := by
  unfold offsetR VOLUME_TEX_SIZE at h
  omega

theorem offsetR_lt (x y z c : Nat) (hx : x < 128) (hy : y < 128) (hz : z < 128) (hc : c < 4) :
    offsetR x y z + c < bufferSize := by
  unfold offsetR bufferSize VOLUME_TEX_SIZE
  omega

theorem lastWrite_voxel_alpha (x y z : Nat) :
    lastWrite (voxelWrites x y z) (offsetR x y z + 3) = some ((expectedAlpha x y z : Nat) : Int) := by
  have e1 : ((voxel x y z).sub (voxel (VOLUME_TEX_SIZE - 20) (VOLUME_TEX_SIZE - 30)
      (VOLUME_TEX_SIZE - 30))).lengthLt 42 = true ↔
      ((x : Int) - 108) ^ 2 + ((y : Int) - 98) ^ 2 + ((z : Int) - 98) ^ 2 < 42 ^ 2 := by
    simp [Vector3.lengthLt, Vector3.sub, voxel, VOLUME_TEX_SIZE, pow_two]
  have e2 : ((voxel x y z).sub (voxel (VOLUME_TEX_SIZE / 2) (VOLUME_TEX_SIZE / 2)
      (VOLUME_TEX_SIZE / 2))).lengthLt 24 = true ↔
      ((x : Int) - 64) ^ 2 + ((y : Int) - 64) ^ 2 + ((z : Int) - 64) ^ 2 < 24 ^ 2 := by
    simp [Vector3.lengthLt, Vector3.sub, voxel, VOLUME_TEX_SIZE, pow_two]
  have e3 : ((voxel x y z).sub (voxel 24 24 24)).lengthLt 40 = true ↔
      ((x : Int) - 24) ^ 2 + ((y : Int) - 24) ^ 2 + ((z : Int) - 24) ^ 2 < 40 ^ 2 := by
    simp [Vector3.lengthLt, Vector3.sub, voxel, pow_two]
  have hseg : ∀ (c : Prop) [Decidable c] (v : Int),
      lastWrite (if c then [(offsetR x y z + 1 + 1 + 1, v)] else []) (offsetR x y z + 3) =
        if c then some v else none := by
    intro c _ v
    split_ifs <;> simp [lastWrite]
  have hins : ∀ (c : Prop) [Decidable c] (v1 v2 v3 v4 : Int),
      lastWrite (if c then [(offsetR x y z, v1), (offsetR x y z + 1, v2),
        (offsetR x y z + 1 + 1, v3), (offsetR x y z + 1 + 1 + 1, v4)] else [])
        (offsetR x y z + 3) = if c then some v4 else none := by
    intro c _ v1 v2 v3 v4
    split_ifs <;> simp [lastWrite]
  have hbase : ∀ (v1 v2 v3 v4 : Int),
      lastWrite [(offsetR x y z, v1), (offsetR x y z + 1, v2),
        (offsetR x y z + 1 + 1, v3), (offsetR x y z + 1 + 1 + 1, v4)]
        (offsetR x y z + 3) = some v4 := by
    intro v1 v2 v3 v4
    simp [lastWrite]
  simp only [voxelWrites, lastWrite_append, hseg, hins, hbase, e1, e2, e3]
  unfold expectedAlpha
  have hU : UPPER = 250 := by decide
  rw [hU]
  simp only [VOLUME_TEX_SIZE]
  split_ifs <;> first | rfl | (exfalso; omega)

theorem mem_allWrites (w : Nat × Int) :
    w ∈ allWrites ↔ ∃ x y z, x < 128 ∧ y < 128 ∧ z < 128 ∧ w ∈ voxelWrites x y z := by
  simp only [allWrites, List.mem_flatMap, List.mem_range, VOLUME_TEX_SIZE]
  constructor
  · rintro ⟨x, hx, y, hy, z, hz, hw⟩; exact ⟨x, y, z, hx, hy, hz, hw⟩
  · rintro ⟨x, y, z, hx, hy, hz, hw⟩; exact ⟨x, hx, y, hy, z, hz, hw⟩

theorem allWrites_lt (w : Nat × Int) (hw : w ∈ allWrites) : w.1 < bufferSize := by
  obtain ⟨x, y, z, hx, hy, hz, hw⟩ := (mem_allWrites w).mp hw
  obtain ⟨c, hc, e⟩ := voxelWrites_offset x y z w hw
  rw [e]
  exact offsetR_lt x y z c hx hy hz hc

/-- Every assignment of `create_volumetexture` is inside the array; the array handed to
`glTexImage3D` holds at each offset the last value assigned to it. -/
theorem create_volumetexture_some :
    create_volumetexture = some (applyWrites allWrites emptyBuffer) := by
  rw [create_volumetexture_eq]
  exact foldlM_store _ _ allWrites_lt _

theorem voxelWrites_other (x y z c x1 y1 z1 : Nat) (hx : x < 128) (hy : y < 128)
    (hx1 : x1 < 128) (hy1 : y1 < 128) (hc : c < 4) (hne : ¬ (x1 = x ∧ y1 = y ∧ z1 = z)) :
    ∀ w ∈ voxelWrites x1 y1 z1, w.1 ≠ offsetR x y z + c := by
  intro w hw e
  obtain ⟨c1, hc1, e1⟩ := voxelWrites_offset x1 y1 z1 w hw
  rw [e1] at e
  have := offsetR_inj x1 y1 z1 c1 x y z c hx1 hy1 hx hy hc1 hc e
  exact hne ⟨this.1, this.2.1, this.2.2.1⟩

/-- The last value `create_volumetexture` assigns to a channel of a voxel is the last one
the loop body assigns to it for that voxel: no other voxel touches it. -/
theorem lastWrite_allWrites (x y z c : Nat) (hx : x < 128) (hy : y < 128) (hz : z < 128)
    (hc : c < 4) :
    lastWrite allWrites (offsetR x y z + c) = lastWrite (voxelWrites x y z) (offsetR x y z + c) := by
  simp only [allWrites, VOLUME_TEX_SIZE]
  rw [lastWrite_flatMap_unique _ _ x _ (List.mem_range.mpr hx),
    lastWrite_flatMap_unique _ _ y _ (List.mem_range.mpr hy),
    lastWrite_flatMap_unique _ _ z _ (List.mem_range.mpr hz)]
  · intro z1 _ hne
    rw [lastWrite_eq_none_iff]
    exact voxelWrites_other x y z c x y z1 hx hy hx hy hc (fun h => hne h.2.2)
  · intro y1 hy1 hne
    rw [lastWrite_eq_none_iff]
    intro w hw
    obtain ⟨z1, _, hw⟩ := List.mem_flatMap.mp hw
    exact voxelWrites_other x y z c x y1 z1 hx hy hx (List.mem_range.mp hy1) hc
      (fun h => hne h.2.1) w hw
  · intro x1 hx1 hne
    rw [lastWrite_eq_none_iff]
    intro w hw
    obtain ⟨y1, hy1, hw⟩ := List.mem_flatMap.mp hw
    obtain ⟨z1, _, hw⟩ := List.mem_flatMap.mp hw
    exact voxelWrites_other x y z c x1 y1 z1 hx hy (List.mem_range.mp hx1)
      (List.mem_range.mp hy1) hc (fun h => hne h.1) w hw

theorem applyWrites_some (ws : List (Nat × Int)) (data : Buffer) (j : Nat) (v : Int)
    (h : lastWrite ws j = some v) : applyWrites ws data j = some (toGLubyte v) := by
  unfold applyWrites
  rw [h]

theorem applyWrites_allWrites (x y z c : Nat) (hx : x < 128) (hy : y < 128) (hz : z < 128)
    (hc : c < 4) (v : Int) (h : lastWrite (voxelWrites x y z) (offsetR x y z + c) = some v) :
    applyWrites allWrites emptyBuffer (offsetR x y z + c) = some (toGLubyte v) :=
  applyWrites_some allWrites emptyBuffer _ v ((lastWrite_allWrites x y z c hx hy hz hc).trans h)

/-- Each of the four channels of a voxel is assigned by the loop body for that voxel. -/
theorem voxelWrites_base_mem (x y z c : Nat) (hc : c < 4) :
    ∃ v, (offsetR x y z + c, v) ∈ voxelWrites x y z := by
  have h : c = 0 ∨ c = 1 ∨ c = 2 ∨ c = 3 := by omega
  rcases h with h | h | h | h <;> subst h
  · exact ⟨(z : Int), by simp [voxelWrites]⟩
  · exact ⟨(y : Int), by simp [voxelWrites]⟩
  · exact ⟨UPPER, by simp [voxelWrites]⟩
  · exact ⟨UPPER - 20, by simp [voxelWrites]⟩

theorem offset_surj (j : Nat) (hj : j < bufferSize) :
    ∃ x y z c, x < 128 ∧ y < 128 ∧ z < 128 ∧ c < 4 ∧ j = offsetR x y z + c := by
  unfold bufferSize VOLUME_TEX_SIZE at hj
  refine ⟨j / 4 % 128, j / 512 % 128, j / 65536, j % 4, ?_, ?_, ?_, ?_, ?_⟩
  · omega
  · omega
  · omega
  · omega
  · unfold offsetR VOLUME_TEX_SIZE
    omega

/-- The values the loop body assigns for a voxel of the cube. -/
theorem voxelWrites_value (x y z : Nat) (hy : y < 128) (hz : z < 128)
    (w : Nat × Int) (hw : w ∈ voxelWrites x y z) :
    (w.2 = z ∨ w.2 = y ∨ w.2 = 250 ∨ w.2 = 230 ∨ w.2 = 125 ∨ w.2 = 83 ∨
      w.2 = (y : Int) % 125 ∨ w.2 = 0) ∧ 0 ≤ w.2 ∧ w.2 ≤ 255 := by
  have hU : UPPER = 250 := by decide
  simp only [voxelWrites, List.mem_append, hU] at hw
  have hv : w.2 = z ∨ w.2 = y ∨ w.2 = 250 ∨ w.2 = 230 ∨ w.2 = 125 ∨ w.2 = 83 ∨
      w.2 = (y : Int) % 125 ∨ w.2 = 0 := by
    rcases hw with (((((hw | hw) | hw) | hw) | hw) | hw) | hw
    all_goals first
      | (split_ifs at hw
         all_goals simp only [List.mem_cons, List.mem_singleton, List.not_mem_nil, or_false] at hw
         all_goals first
           | exact absurd hw id
           | (rcases hw with h | h | h | h <;> subst h <;> norm_num)
           | (subst hw; norm_num))
      | (simp only [List.mem_cons, List.mem_singleton, List.not_mem_nil, or_false] at hw
         rcases hw with h | h | h | h <;> subst h <;> norm_num)
  refine ⟨hv, ?_, ?_⟩ <;> omega

theorem toGLubyte_of_byte (v : Int) (h0 : 0 ≤ v) (h1 : v ≤ 255) : (toGLubyte v : Int) = v := by
  unfold toGLubyte
  omega

theorem toGLubyte_natCast (n : Nat) (h : n < 256) : toGLubyte (n : Int) = n := by
  unfold toGLubyte
  omega

theorem expectedAlpha_le (x y z : Nat) : expectedAlpha x y z ≤ 250 := by
  unfold expectedAlpha
  split_ifs <;> omega

theorem offsetR_eq_expected (x y z c : Nat) : offsetR x y z + c = expectedOffset x y z c := by
  unfold offsetR expectedOffset VOLUME_TEX_SIZE
  omega

end VolumeFacts

/-! ## The claims on the procedural volume -/

section VolumeClaims

/-- C8: overlapping regions resolve by last write wins in the order base fill, cavity 1,
cavity 2, insets, final cavity. In the array `create_volumetexture` builds, the alpha of
every voxel `(x, y, z)` of the 128-cube is `expectedAlpha x y z`: 0 inside the final cavity
(radius 40 around `(24,24,24)`), otherwise 250 inside an inset, otherwise 0 inside the
cavity of radius 42 around `(108,98,98)` or of radius 24 around `(64,64,64)`, otherwise 230.
The voxel `(30,24,24)` has alpha 0 with the colour `(125, 250, 24)` of the first inset, the
voxel `(64,64,45)` has alpha 250. -/
theorem volume_alpha_last_write_wins :
    ∃ data, create_volumetexture = some data ∧
      (∀ x y z, x < 128 → y < 128 → z < 128 →
        data (offsetR x y z + 3) = some (expectedAlpha x y z)) ∧
      (data (offsetR 30 24 24 + 3) = some 0 ∧ data (offsetR 30 24 24 + 0) = some 125 ∧
        data (offsetR 30 24 24 + 1) = some 250 ∧ data (offsetR 30 24 24 + 2) = some 24) ∧
      data (offsetR 64 64 45 + 3) = some 250 := by
  have halpha : ∀ x y z, x < 128 → y < 128 → z < 128 →
      applyWrites allWrites emptyBuffer (offsetR x y z + 3) = some (expectedAlpha x y z) := by
    intro x y z hx hy hz
    rw [applyWrites_allWrites x y z 3 hx hy hz (by norm_num) _ (lastWrite_voxel_alpha x y z),
      toGLubyte_natCast _ (Nat.lt_of_le_of_lt (expectedAlpha_le x y z) (by norm_num))]
  have e1 : expectedAlpha 30 24 24 = 0 := by decide
  have e2 : expectedAlpha 64 64 45 = 250 := by decide
  have c0 : lastWrite (voxelWrites 30 24 24) (offsetR 30 24 24 + 0) = some 125 := by decide
  have c1 : lastWrite (voxelWrites 30 24 24) (offsetR 30 24 24 + 1) = some 250 := by decide
  have c2 : lastWrite (voxelWrites 30 24 24) (offsetR 30 24 24 + 2) = some 24 := by decide
  refine ⟨applyWrites allWrites emptyBuffer, create_volumetexture_some, halpha, ⟨?_, ?_, ?_, ?_⟩, ?_⟩
  · rw [halpha 30 24 24 (by norm_num) (by norm_num) (by norm_num), e1]
  · rw [applyWrites_allWrites 30 24 24 0 (by norm_num) (by norm_num) (by norm_num)
      (by norm_num) _ c0]
    rfl
  · rw [applyWrites_allWrites 30 24 24 1 (by norm_num) (by norm_num) (by norm_num)
      (by norm_num) _ c1]
    rfl
  · rw [applyWrites_allWrites 30 24 24 2 (by norm_num) (by norm_num) (by norm_num)
      (by norm_num) _ c2]
    rfl
  · rw [halpha 64 64 45 (by norm_num) (by norm_num) (by norm_num), e2]

/-- C9: the channel `c` of the voxel `(x, y, z)` is stored at the byte offset
`4*(x + 128*y + 128*128*z) + c`; every assignment of the loop body goes to such an offset
and each of the four is assigned. On the 128-cube the offset map is a bijection onto
`[0, 4*128^3)`, the size of the array: the offsets are inside the array, distinct voxel
channels have distinct offsets, every offset below the size is one of them. So no
assignment falls outside the array and every byte is assigned before the upload. -/
theorem volume_offsets_bijective :
    bufferSize = 4 * 128 ^ 3 ∧
    (∀ x y z, ∀ w ∈ voxelWrites x y z, ∃ c, c < 4 ∧ w.1 = expectedOffset x y z c) ∧
    (∀ x y z c, c < 4 → ∃ v, (expectedOffset x y z c, v) ∈ voxelWrites x y z) ∧
    (∀ x y z c, x < 128 → y < 128 → z < 128 → c < 4 → expectedOffset x y z c < bufferSize) ∧
    (∀ x y z c x1 y1 z1 c1, x < 128 → y < 128 → z < 128 → c < 4 →
      x1 < 128 → y1 < 128 → z1 < 128 → c1 < 4 →
      expectedOffset x y z c = expectedOffset x1 y1 z1 c1 → x = x1 ∧ y = y1 ∧ z = z1 ∧ c = c1) ∧
    (∀ j, j < bufferSize →
      ∃ x y z c, x < 128 ∧ y < 128 ∧ z < 128 ∧ c < 4 ∧ j = expectedOffset x y z c) ∧
    (∀ w ∈ allWrites, w.1 < bufferSize) ∧
    (∃ data, create_volumetexture = some data ∧ ∀ j, j < bufferSize → (data j).isSome) := by
  refine ⟨by decide, ?_, ?_, ?_, ?_, ?_, allWrites_lt, ?_⟩
  · intro x y z w hw
    obtain ⟨c, hc, e⟩ := voxelWrites_offset x y z w hw
    exact ⟨c, hc, by rw [e, offsetR_eq_expected]⟩
  · intro x y z c hc
    obtain ⟨v, hv⟩ := voxelWrites_base_mem x y z c hc
    exact ⟨v, by rw [← offsetR_eq_expected]; exact hv⟩
  · intro x y z c hx hy hz hc
    rw [← offsetR_eq_expected]
    exact offsetR_lt x y z c hx hy hz hc
  · intro x y z c x1 y1 z1 c1 hx hy _ hc hx1 hy1 _ hc1 h
    rw [← offsetR_eq_expected, ← offsetR_eq_expected] at h
    exact offsetR_inj x y z c x1 y1 z1 c1 hx hy hx1 hy1 hc hc1 h
  · intro j hj
    obtain ⟨x, y, z, c, hx, hy, hz, hc, e⟩ := offset_surj j hj
    exact ⟨x, y, z, c, hx, hy, hz, hc, by rw [e, offsetR_eq_expected]⟩
  · refine ⟨applyWrites allWrites emptyBuffer, create_volumetexture_some, ?_⟩
    intro j hj
    obtain ⟨x, y, z, c, hx, hy, hz, hc, e⟩ := offset_surj j hj
    obtain ⟨v, hv⟩ := voxelWrites_base_mem x y z c hc
    cases hl : lastWrite (voxelWrites x y z) (offsetR x y z + c) with
    | none => exact absurd rfl ((lastWrite_eq_none_iff _ _).mp hl _ hv)
    | some u =>
      rw [e, applyWrites_allWrites x y z c hx hy hz hc u hl]
      rfl

/-- C10: every value the loop body assigns to a channel of a voxel of the 128-cube is one
of `z`, `y`, 250, 230, 125, 83, `y % 125`, 0 and lies in `[0, 255]`, so its conversion to
`GLubyte` does not change it; each byte of the array handed to `glTexImage3D` is the last
value assigned to it, unchanged. -/
theorem volume_values_fit_byte :
    (UPPER = 250 ∧ UPPER - 20 = 230 ∧ UPPER / 2 = 125 ∧ UPPER / 3 = 83) ∧
    (∀ x y z, x < 128 → y < 128 → z < 128 → ∀ w ∈ voxelWrites x y z,
      (w.2 = z ∨ w.2 = y ∨ w.2 = 250 ∨ w.2 = 230 ∨ w.2 = 125 ∨ w.2 = 83 ∨
        w.2 = (y : Int) % 125 ∨ w.2 = 0) ∧
      0 ≤ w.2 ∧ w.2 ≤ 255 ∧ (toGLubyte w.2 : Int) = w.2) ∧
    (∃ data, create_volumetexture = some data ∧
      ∀ j, j < bufferSize →
        ∃ v : Int, lastWrite allWrites j = some v ∧ 0 ≤ v ∧ v ≤ 255 ∧ data j = some v.toNat) := by
  refine ⟨by decide, ?_, ?_⟩
  · intro x y z _ hy hz w hw
    obtain ⟨hv, h0, h1⟩ := voxelWrites_value x y z hy hz w hw
    exact ⟨hv, h0, h1, toGLubyte_of_byte _ h0 h1⟩
  · refine ⟨applyWrites allWrites emptyBuffer, create_volumetexture_some, ?_⟩
    intro j hj
    obtain ⟨x, y, z, c, hx, hy, hz, hc, e⟩ := offset_surj j hj
    obtain ⟨v, hv⟩ := voxelWrites_base_mem x y z c hc
    cases hl : lastWrite (voxelWrites x y z) (offsetR x y z + c) with
    | none => exact absurd rfl ((lastWrite_eq_none_iff _ _).mp hl _ hv)
    | some u =>
      have hmem := lastWrite_mem _ _ _ hl
      obtain ⟨_, h0, h1⟩ := voxelWrites_value x y z hy hz _ hmem
      refine ⟨u, ?_, h0, h1, ?_⟩
      · rw [e, lastWrite_allWrites x y z c hx hy hz hc, hl]
      · rw [e, applyWrites_allWrites x y z c hx hy hz hc u hl]
        have : toGLubyte u = u.toNat := by
          have := toGLubyte_of_byte u h0 h1
          omega
        rw [this]

end VolumeClaims

/-! ## The claim on the proxy geometry -/

section GeometryClaims

variable {α : Type} [LinearOrderedField α]

/-- The six quads `drawQuads` draws, vertex by vertex. -/
theorem assembleQuads_drawQuads (x y z : α) :
    assembleQuads (drawQuads x y z) =
      [⟨⟨⟨0, 0, 0⟩, ⟨0, 0, -1⟩, ⟨0, 0, 0⟩, ⟨0, 0, 0⟩⟩, ⟨⟨0, y, 0⟩, ⟨0, 0, -1⟩, ⟨0, y, 0⟩, ⟨0, y, 0⟩⟩,
        ⟨⟨x, y, 0⟩, ⟨0, 0, -1⟩, ⟨x, y, 0⟩, ⟨x, y, 0⟩⟩, ⟨⟨x, 0, 0⟩, ⟨0, 0, -1⟩, ⟨x, 0, 0⟩, ⟨x, 0, 0⟩⟩⟩,
       ⟨⟨⟨0, 0, z⟩, ⟨0, 0, 1⟩, ⟨0, 0, z⟩, ⟨0, 0, z⟩⟩, ⟨⟨x, 0, z⟩, ⟨0, 0, 1⟩, ⟨x, 0, z⟩, ⟨x, 0, z⟩⟩,
        ⟨⟨x, y, z⟩, ⟨0, 0, 1⟩, ⟨x, y, z⟩, ⟨x, y, z⟩⟩, ⟨⟨0, y, z⟩, ⟨0, 0, 1⟩, ⟨0, y, z⟩, ⟨0, y, z⟩⟩⟩,
       ⟨⟨⟨0, y, 0⟩, ⟨0, 1, 0⟩, ⟨0, y, 0⟩, ⟨0, y, 0⟩⟩, ⟨⟨0, y, z⟩, ⟨0, 1, 0⟩, ⟨0, y, z⟩, ⟨0, y, z⟩⟩,
        ⟨⟨x, y, z⟩, ⟨0, 1, 0⟩, ⟨x, y, z⟩, ⟨x, y, z⟩⟩, ⟨⟨x, y, 0⟩, ⟨0, 1, 0⟩, ⟨x, y, 0⟩, ⟨x, y, 0⟩⟩⟩,
       ⟨⟨⟨0, 0, 0⟩, ⟨0, -1, 0⟩, ⟨0, 0, 0⟩, ⟨0, 0, 0⟩⟩, ⟨⟨x, 0, 0⟩, ⟨0, -1, 0⟩, ⟨x, 0, 0⟩, ⟨x, 0, 0⟩⟩,
        ⟨⟨x, 0, z⟩, ⟨0, -1, 0⟩, ⟨x, 0, z⟩, ⟨x, 0, z⟩⟩, ⟨⟨0, 0, z⟩, ⟨0, -1, 0⟩, ⟨0, 0, z⟩, ⟨0, 0, z⟩⟩⟩,
       ⟨⟨⟨0, 0, 0⟩, ⟨-1, 0, 0⟩, ⟨0, 0, 0⟩, ⟨0, 0, 0⟩⟩, ⟨⟨0, 0, z⟩, ⟨-1, 0, 0⟩, ⟨0, 0, z⟩, ⟨0, 0, z⟩⟩,
        ⟨⟨0, y, z⟩, ⟨-1, 0, 0⟩, ⟨0, y, z⟩, ⟨0, y, z⟩⟩, ⟨⟨0, y, 0⟩, ⟨-1, 0, 0⟩, ⟨0, y, 0⟩, ⟨0, y, 0⟩⟩⟩,
       ⟨⟨⟨x, 0, 0⟩, ⟨1, 0, 0⟩, ⟨x, 0, 0⟩, ⟨x, 0, 0⟩⟩, ⟨⟨x, y, 0⟩, ⟨1, 0, 0⟩, ⟨x, y, 0⟩, ⟨x, y, 0⟩⟩,
        ⟨⟨x, y, z⟩, ⟨1, 0, 0⟩, ⟨x, y, z⟩, ⟨x, y, z⟩⟩, ⟨⟨x, 0, z⟩, ⟨1, 0, 0⟩, ⟨x, 0, z⟩, ⟨x, 0, z⟩⟩⟩] := by
  simp only [assembleQuads, drawQuads, vertex, List.cons_append, List.nil_append,
    List.foldl_cons, List.foldl_nil, Assembly.step, Assembly.init]

/-- C11: for all positive `x`, `y`, `z`, `drawQuads(x,y,z)` draws exactly six quads, one for
each of the six distinct faces of the box from `(0,0,0)` to `(x,y,z)`, in the order back,
front, top, bottom, left, right. The four vertices of each quad are distinct and are the
corners of its face; the normal declared for the quad is the outward normal of that face
(it points from the centre of the box to the face); the cross product of the first two
edges `(v1 - v0) x (v2 - v0)` is a positive multiple of it, and so is that of the next two:
every face is wound counter-clockwise seen from outside. Each vertex carries its own
position as texture coordinate. -/
theorem drawQuads_six_outward_faces (x y z : α) (hx : 0 < x) (hy : 0 < y) (hz : 0 < z) :
    (assembleQuads (drawQuads x y z)).length = 6 ∧
    quadFaces.Nodup ∧ (∀ f : Face, f ∈ quadFaces) ∧
    List.Forall₂ (FaceQuad x y z) quadFaces (assembleQuads (drawQuads x y z)) := by
  rw [assembleQuads_drawQuads]
  refine ⟨rfl, by decide, by intro f; cases f <;> decide, ?_⟩
  simp only [quadFaces, List.forall₂_cons, List.forall₂_nil_left_iff, and_true]
  unfold FaceQuad
  refine ⟨?_, ?_, ?_, ?_, ?_, ?_⟩
  · refine ⟨?_, ?_, ⟨rfl, rfl, rfl, rfl⟩, ?_, ⟨x * y, mul_pos hx hy, ?_⟩, ⟨x * y, mul_pos hx hy, ?_⟩,
      ⟨rfl, rfl, rfl, rfl⟩⟩
    · simp [Quad.positions, hx.ne', hy.ne', hz.ne', hx.ne, hy.ne, hz.ne]
    · intro v
      obtain ⟨a, b, c⟩ := v
      simp only [Quad.positions, List.mem_cons, List.mem_singleton, List.not_mem_nil, or_false,
        Vec3.mk.injEq, isBoxCorner, onFace]
      constructor
      · rintro (⟨rfl, rfl, rfl⟩ | ⟨rfl, rfl, rfl⟩ | ⟨rfl, rfl, rfl⟩ | ⟨rfl, rfl, rfl⟩) <;> simp
      · rintro ⟨⟨ha | ha, hb | hb, hc | hc⟩, hf⟩ <;> subst ha <;> subst hb <;> subst hc <;>
          simp_all
    · intro v hv
      simp only [Quad.positions, List.mem_cons, List.mem_singleton, List.not_mem_nil,
        or_false] at hv
      rcases hv with rfl | rfl | rfl | rfl <;>
        simp only [outwardNormal, Vec3.dot, Vec3.sub] <;> linarith
    · simp only [Vec3.cross, Vec3.sub, Vec3.scale, outwardNormal, Vec3.mk.injEq]
      refine ⟨by ring, by ring, by ring⟩
    · simp only [Vec3.cross, Vec3.sub, Vec3.scale, outwardNormal, Vec3.mk.injEq]
      refine ⟨by ring, by ring, by ring⟩
  · refine ⟨?_, ?_, ⟨rfl, rfl, rfl, rfl⟩, ?_, ⟨x * y, mul_pos hx hy, ?_⟩, ⟨x * y, mul_pos hx hy, ?_⟩,
      ⟨rfl, rfl, rfl, rfl⟩⟩
    · simp [Quad.positions, hx.ne', hy.ne', hz.ne', hx.ne, hy.ne, hz.ne]
    · intro v
      obtain ⟨a, b, c⟩ := v
      simp only [Quad.positions, List.mem_cons, List.mem_singleton, List.not_mem_nil, or_false,
        Vec3.mk.injEq, isBoxCorner, onFace]
      constructor
      · rintro (⟨rfl, rfl, rfl⟩ | ⟨rfl, rfl, rfl⟩ | ⟨rfl, rfl, rfl⟩ | ⟨rfl, rfl, rfl⟩) <;> simp
      · rintro ⟨⟨ha | ha, hb | hb, hc | hc⟩, hf⟩ <;> subst ha <;> subst hb <;> subst hc <;>
          simp_all
    · intro v hv
      simp only [Quad.positions, List.mem_cons, List.mem_singleton, List.not_mem_nil,
        or_false] at hv
      rcases hv with rfl | rfl | rfl | rfl <;>
        simp only [outwardNormal, Vec3.dot, Vec3.sub] <;> linarith
    · simp only [Vec3.cross, Vec3.sub, Vec3.scale, outwardNormal, Vec3.mk.injEq]
      refine ⟨by ring, by ring, by ring⟩
    · simp only [Vec3.cross, Vec3.sub, Vec3.scale, outwardNormal, Vec3.mk.injEq]
      refine ⟨by ring, by ring, by ring⟩
  · refine ⟨?_, ?_, ⟨rfl, rfl, rfl, rfl⟩, ?_, ⟨z * x, mul_pos hz hx, ?_⟩, ⟨z * x, mul_pos hz hx, ?_⟩,
      ⟨rfl, rfl, rfl, rfl⟩⟩
    · simp [Quad.positions, hx.ne', hy.ne', hz.ne', hx.ne, hy.ne, hz.ne]
    · intro v
      obtain ⟨a, b, c⟩ := v
      simp only [Quad.positions, List.mem_cons, List.mem_singleton, List.not_mem_nil, or_false,
        Vec3.mk.injEq, isBoxCorner, onFace]
      constructor
      · rintro (⟨rfl, rfl, rfl⟩ | ⟨rfl, rfl, rfl⟩ | ⟨rfl, rfl, rfl⟩ | ⟨rfl, rfl, rfl⟩) <;> simp
      · rintro ⟨⟨ha | ha, hb | hb, hc | hc⟩, hf⟩ <;> subst ha <;> subst hb <;> subst hc <;>
          simp_all
    · intro v hv
      simp only [Quad.positions, List.mem_cons, List.mem_singleton, List.not_mem_nil,
        or_false] at hv
      rcases hv with rfl | rfl | rfl | rfl <;>
        simp only [outwardNormal, Vec3.dot, Vec3.sub] <;> linarith
    · simp only [Vec3.cross, Vec3.sub, Vec3.scale, outwardNormal, Vec3.mk.injEq]
      refine ⟨by ring, by ring, by ring⟩
    · simp only [Vec3.cross, Vec3.sub, Vec3.scale, outwardNormal, Vec3.mk.injEq]
      refine ⟨by ring, by ring, by ring⟩
  · refine ⟨?_, ?_, ⟨rfl, rfl, rfl, rfl⟩, ?_, ⟨x * z, mul_pos hx hz, ?_⟩, ⟨x * z, mul_pos hx hz, ?_⟩,
      ⟨rfl, rfl, rfl, rfl⟩⟩
    · simp [Quad.positions, hx.ne', hy.ne', hz.ne', hx.ne, hy.ne, hz.ne]
    · intro v
      obtain ⟨a, b, c⟩ := v
      simp only [Quad.positions, List.mem_cons, List.mem_singleton, List.not_mem_nil, or_false,
        Vec3.mk.injEq, isBoxCorner, onFace]
      constructor
      · rintro (⟨rfl, rfl, rfl⟩ | ⟨rfl, rfl, rfl⟩ | ⟨rfl, rfl, rfl⟩ | ⟨rfl, rfl, rfl⟩) <;> simp
      · rintro ⟨⟨ha | ha, hb | hb, hc | hc⟩, hf⟩ <;> subst ha <;> subst hb <;> subst hc <;>
          simp_all
    · intro v hv
      simp only [Quad.positions, List.mem_cons, List.mem_singleton, List.not_mem_nil,
        or_false] at hv
      rcases hv with rfl | rfl | rfl | rfl <;>
        simp only [outwardNormal, Vec3.dot, Vec3.sub] <;> linarith
    · simp only [Vec3.cross, Vec3.sub, Vec3.scale, outwardNormal, Vec3.mk.injEq]
      refine ⟨by ring, by ring, by ring⟩
    · simp only [Vec3.cross, Vec3.sub, Vec3.scale, outwardNormal, Vec3.mk.injEq]
      refine ⟨by ring, by ring, by ring⟩
  · refine ⟨?_, ?_, ⟨rfl, rfl, rfl, rfl⟩, ?_, ⟨z * y, mul_pos hz hy, ?_⟩, ⟨z * y, mul_pos hz hy, ?_⟩,
      ⟨rfl, rfl, rfl, rfl⟩⟩
    · simp [Quad.positions, hx.ne', hy.ne', hz.ne', hx.ne, hy.ne, hz.ne]
    · intro v
      obtain ⟨a, b, c⟩ := v
      simp only [Quad.positions, List.mem_cons, List.mem_singleton, List.not_mem_nil, or_false,
        Vec3.mk.injEq, isBoxCorner, onFace]
      constructor
      · rintro (⟨rfl, rfl, rfl⟩ | ⟨rfl, rfl, rfl⟩ | ⟨rfl, rfl, rfl⟩ | ⟨rfl, rfl, rfl⟩) <;> simp
      · rintro ⟨⟨ha | ha, hb | hb, hc | hc⟩, hf⟩ <;> subst ha <;> subst hb <;> subst hc <;>
          simp_all
    · intro v hv
      simp only [Quad.positions, List.mem_cons, List.mem_singleton, List.not_mem_nil,
        or_false] at hv
      rcases hv with rfl | rfl | rfl | rfl <;>
        simp only [outwardNormal, Vec3.dot, Vec3.sub] <;> linarith
    · simp only [Vec3.cross, Vec3.sub, Vec3.scale, outwardNormal, Vec3.mk.injEq]
      refine ⟨by ring, by ring, by ring⟩
    · simp only [Vec3.cross, Vec3.sub, Vec3.scale, outwardNormal, Vec3.mk.injEq]
      refine ⟨by ring, by ring, by ring⟩
  · refine ⟨?_, ?_, ⟨rfl, rfl, rfl, rfl⟩, ?_, ⟨y * z, mul_pos hy hz, ?_⟩, ⟨y * z, mul_pos hy hz, ?_⟩,
      ⟨rfl, rfl, rfl, rfl⟩⟩
    · simp [Quad.positions, hx.ne', hy.ne', hz.ne', hx.ne, hy.ne, hz.ne]
    · intro v
      obtain ⟨a, b, c⟩ := v
      simp only [Quad.positions, List.mem_cons, List.mem_singleton, List.not_mem_nil, or_false,
        Vec3.mk.injEq, isBoxCorner, onFace]
      constructor
      · rintro (⟨rfl, rfl, rfl⟩ | ⟨rfl, rfl, rfl⟩ | ⟨rfl, rfl, rfl⟩ | ⟨rfl, rfl, rfl⟩) <;> simp
      · rintro ⟨⟨ha | ha, hb | hb, hc | hc⟩, hf⟩ <;> subst ha <;> subst hb <;> subst hc <;>
          simp_all
    · intro v hv
      simp only [Quad.positions, List.mem_cons, List.mem_singleton, List.not_mem_nil,
        or_false] at hv
      rcases hv with rfl | rfl | rfl | rfl <;>
        simp only [outwardNormal, Vec3.dot, Vec3.sub] <;> linarith
    · simp only [Vec3.cross, Vec3.sub, Vec3.scale, outwardNormal, Vec3.mk.injEq]
      refine ⟨by ring, by ring, by ring⟩
    · simp only [Vec3.cross, Vec3.sub, Vec3.scale, outwardNormal, Vec3.mk.injEq]
      refine ⟨by ring, by ring, by ring⟩

/-- Witness of C11: the unit cube `drawQuads(1.0,1.0,1.0)` of lines 563 and 603. -/
theorem drawQuads_six_outward_faces_witness :
    (0 : ℚ) < 1 ∧
    (assembleQuads (drawQuads (1 : ℚ) 1 1)).length = 6 ∧
    List.Forall₂ (FaceQuad (1 : ℚ) 1 1) quadFaces (assembleQuads (drawQuads (1 : ℚ) 1 1)) :=
  have h : (0 : ℚ) < 1 := by norm_num
  ⟨h, (drawQuads_six_outward_faces (1 : ℚ) 1 1 h h h).1,
    (drawQuads_six_outward_faces (1 : ℚ) 1 1 h h h).2.2.2⟩

end GeometryClaims

/-! ## The claim on the iteration cap -/

section CapClaims

variable {α : Type} [LinearOrderedField α]

end CapClaims

/-! ## The claim on shader failures -/

section SetupClaims

theorem mem_main_of_mem_display (d : Driver) (frames n : Nat) (hn : n < frames)
    (hrun : (init d).exited = false) (e : Event) (he : e ∈ display d n) : e ∈ main d frames := by
  unfold main
  rw [hrun]
  simp only [Bool.false_eq_true, if_false, List.mem_append, List.mem_cons, List.mem_flatMap,
    List.mem_range]
  exact Or.inr (Or.inr ⟨n, hn, he⟩)

/-- C12, the claim as stated fails: on `brokenShaderDriver` the fragment shader does not
compile, the program does not link and does not validate, and still `init` completes, the
render loop is entered and the first frame draws the proxy geometry with that program,
each failure being only written to `cout`. -/
theorem shader_failure_not_fatal :
    shaderSetupFails brokenShaderDriver ∧
    (init brokenShaderDriver).exited = false ∧
    main brokenShaderDriver 1 =
      [Event.create_volumetexture, Event.glCreateProgram,
        Event.glCreateShader ShaderType.GL_VERTEX_SHADER,
        Event.glCompileShader ShaderType.GL_VERTEX_SHADER,
        Event.glAttachShader ShaderType.GL_VERTEX_SHADER,
        Event.glCreateShader ShaderType.GL_FRAGMENT_SHADER,
        Event.glCompileShader ShaderType.GL_FRAGMENT_SHADER,
        Event.cout (Message.errorCompilingShaderType ShaderType.GL_FRAGMENT_SHADER),
        Event.glLinkProgram, Event.cout Message.errorLinkingShaderProgram,
        Event.createRenderTargets, Event.glutMainLoop, Event.render_backface,
        Event.glUseProgram 1, Event.glValidateProgram,
        Event.cout Message.invalidShaderProgram, Event.drawQuads, Event.glUseProgram 0,
        Event.render_buffer_to_screen, Event.glutSwapBuffers] :=
  ⟨Or.inr (Or.inl rfl), by decide, by decide⟩

/-- C12, amended: when the driver supports the shading language, a failure to compile, link
or validate the shader program is not fatal. `init` completes without `exit`, `main` enters
the render loop, and every frame validates the program and then draws the proxy geometry
with it in use. A shader that does not compile is reported on `cout` and not attached, a
link failure is reported on `cout`, and a validation failure is reported on `cout` in the
frame it occurs in, before the draw. `init` ends the process exactly when the shading
language is not supported. -/
theorem shader_failure_only_logged (d : Driver) (frames : Nat)
    (hglsl : d.shadingLanguage = true) :
    (init d).exited = false ∧
    (∀ status, Event.exit status ∉ main d frames) ∧
    Event.glutMainLoop ∈ main d frames ∧
    (∀ n, n < frames →
      Event.glUseProgram d.glCreateProgram ∈ main d frames ∧ Event.drawQuads ∈ main d frames ∧
      raycasting_pass d n =
        Event.glUseProgram d.glCreateProgram :: Event.glValidateProgram ::
          ((if d.validateStatus n = false then [Event.cout Message.invalidShaderProgram]
            else []) ++ [Event.drawQuads, Event.glUseProgram 0])) ∧
    (∀ t, d.glCreateProgram ≠ 0 → d.glCreateShader t ≠ 0 → d.compileStatus t = false →
      Event.cout (Message.errorCompilingShaderType t) ∈ (init d).events ∧
      Event.glAttachShader t ∉ (init d).events) ∧
    (d.glCreateProgram ≠ 0 → d.linkStatus = false →
      Event.cout Message.errorLinkingShaderProgram ∈ (init d).events) ∧
    (∀ d1 : Driver, (init d1).exited = true ↔ d1.shadingLanguage = false) := by
  have hrun : (init d).exited = false := by simp [init, hglsl]
  have hev : (init d).events =
      Event.create_volumetexture :: (compile_shaders d ++ [Event.createRenderTargets]) := by
    simp [init, hglsl]
  refine ⟨hrun, ?_, ?_, ?_, ?_, ?_, ?_⟩
  · intro status h
    have hc : Event.exit status ∉ compile_shaders d := by
      simp only [compile_shaders, add_shader]
      split_ifs <;> simp
    have hd : ∀ n, Event.exit status ∉ display d n := by
      intro n
      simp only [display, raycasting_pass, validate_shader]
      split_ifs <;> simp
    unfold main at h
    rw [hrun] at h
    simp only [Bool.false_eq_true, if_false, List.mem_append, List.mem_cons, List.mem_flatMap,
      List.mem_range] at h
    rcases h with h | h | ⟨n, _, h⟩
    · rw [hev] at h
      simp only [List.mem_cons, List.mem_append, List.mem_singleton, List.not_mem_nil,
        or_false] at h
      rcases h with h | h | h
      · cases h
      · exact hc h
      · cases h
    · cases h
    · exact hd n h
  · unfold main
    rw [hrun]
    simp
  · intro n hn
    refine ⟨mem_main_of_mem_display d frames n hn hrun _ (by simp [display, raycasting_pass]),
      mem_main_of_mem_display d frames n hn hrun _ (by simp [display, raycasting_pass]), ?_⟩
    unfold raycasting_pass validate_shader
    cases d.validateStatus n <;> simp
  · intro t hp hsh hc
    rw [hev]
    cases t <;> simp [compile_shaders, add_shader, hp, hsh, hc] <;>
      split_ifs <;> simp
  · intro hp hl
    rw [hev]
    simp [compile_shaders, hp, hl]
  · intro d1
    unfold init
    cases d1.shadingLanguage <;> simp

/-- Witness of the amended C12: the driver `brokenShaderDriver`, three frames. -/
theorem shader_failure_only_logged_witness :
    brokenShaderDriver.shadingLanguage = true ∧
    (init brokenShaderDriver).exited = false ∧
    Event.glutMainLoop ∈ main brokenShaderDriver 3 :=
  have h := shader_failure_only_logged brokenShaderDriver 3 rfl
  ⟨rfl, h.1, h.2.2.1⟩

end SetupClaims

end RayCast
